import Mathlib

/-!
Verification development for the Spotify-streaming-analyzer repository.

The two source files are
  src/app/components/streaming-adapter.js   (namespace `StreamingAdapter` below)
  src/app/components/podcast-rankings.js    (namespace `PodcastRankings` below)

JavaScript strings are modelled as Lean `String`s (lists of characters) with
an explicit case mapping covering the Basic Latin and Latin-1 Supplement
blocks (including the length-changing special mapping `ß` → `"SS"` of
`toUpperCase`), and JS numbers appearing in the analyzed code paths
(millisecond timestamps, play durations, counters) as `Int`/`Nat`.
Regular-expression replacements used by `normalizeString` are embedded as
executable scanners with the same leftmost, lazy, global semantics.
-/

/-! ## JS string primitives -/

/-- Lower-casing of one character, as `String.prototype.toLowerCase` acts on
the Basic Latin and Latin-1 Supplement blocks together with `Ÿ` (the
fragment of the Unicode case mapping exercised in this development):
`A`–`Z` (65–90) and the Latin-1 capitals `À`–`Þ` (192–222, excluding the
multiplication sign `×` at 215) map down by 32, and `Ÿ` (376) maps to `ÿ`
(255); every other character is left untouched. -/
def jsCharLow (c : Char) : Char :=
  if 65 ≤ c.toNat ∧ c.toNat ≤ 90 then Char.ofNat (c.toNat + 32)
  else if (192 ≤ c.toNat ∧ c.toNat ≤ 222) ∧ c.toNat ≠ 215 then
    Char.ofNat (c.toNat + 32)
  else if c.toNat = 376 then Char.ofNat 255
  else c

/-- Upper-casing of one character to a character list, since
`String.prototype.toUpperCase` is not length-preserving: the full case
mapping sends `ß` (223) to the two-character string `"SS"`; `a`–`z`
(97–122) and the Latin-1 small letters `à`–`þ` (224–254, excluding the
division sign `÷` at 247) map up by 32, and `ÿ` (255) maps to `Ÿ` (376);
every other character is left untouched. -/
def jsCharUp (c : Char) : List Char :=
  if c.toNat = 223 then ['S', 'S']
  else if 97 ≤ c.toNat ∧ c.toNat ≤ 122 then [Char.ofNat (c.toNat - 32)]
  else if (224 ≤ c.toNat ∧ c.toNat ≤ 254) ∧ c.toNat ≠ 247 then
    [Char.ofNat (c.toNat - 32)]
  else if c.toNat = 255 then [Char.ofNat 376]
  else [c]

/-- Model of `str.toLowerCase()`. -/
def jsToLower (s : String) : String := String.mk (s.data.map jsCharLow)

/-- Model of `str.toUpperCase()`. -/
def jsToUpper (s : String) : String := String.mk ((s.data.map jsCharUp).flatten)

/-- Model of the JS `\w` character class: `[A-Za-z0-9_]`. -/
def jsIsWordChar (c : Char) : Bool :=
  (65 ≤ c.toNat && c.toNat ≤ 90) || (97 ≤ c.toNat && c.toNat ≤ 122) ||
  (48 ≤ c.toNat && c.toNat ≤ 57) || c = '_'

/-- Model of the JS `\s` character class (whitespace as matched by `\s`,
`trim` and friends): ASCII whitespace plus the common Unicode space
separators. -/
def jsIsSpace (c : Char) : Bool :=
  c = ' ' || c = '\t' || c = '\n' || c = '\r' ||
  c.toNat = 11 || c.toNat = 12 || c.toNat = 0xa0 || c.toNat = 0x1680 ||
  (0x2000 ≤ c.toNat && c.toNat ≤ 0x200a) || c.toNat = 0x2028 ||
  c.toNat = 0x2029 || c.toNat = 0x202f || c.toNat = 0x205f ||
  c.toNat = 0x3000 || c.toNat = 0xfeff

/-- Check that `kw` matches the beginning of `l` character-wise via `cmp`
(plain equality, or case-insensitive equality for `/i` regex fragments). -/
def kwMatches (cmp : Char → Char → Bool) : List Char → List Char → Bool
  | [], _ => true
  | _ :: _, [] => false
  | k :: ks, c :: cs => cmp k c && kwMatches cmp ks cs

/-- Search the list for the first occurrence of `kw` that is not preceded by a
newline in the scanned span, and return the remainder after it; this is the
behaviour of a lazy `.*?kw` regex fragment (`.` does not match `'\n'`). -/
def lazyThrough (cmp : Char → Char → Bool) (kw : List Char) : List Char → Option (List Char)
  | [] => if kw = [] then some [] else none
  | c :: rest =>
    if kwMatches cmp kw (c :: rest) then some ((c :: rest).drop kw.length)
    else if c = '\n' then none
    else lazyThrough cmp kw rest

/-- Character equality, used for case-sensitive regex fragments. -/
def chEq (a b : Char) : Bool := a = b

/-- Case-insensitive character comparison for `/i` regex fragments; the
pattern letter `a` is stored lower-case. -/
def chEqCI (a b : Char) : Bool := a = jsCharLow b

/-- Match the fragment `kw.*?\)` with backtracking: find the first occurrence
of `kw` (case-insensitively, not crossing a newline) that is followed,
possibly after further non-newline characters, by a closing parenthesis, and
return the remainder after that parenthesis.  This is the body of the
`\(.*?kw.*?\)` patterns of `normalizeString`. -/
def kwThenClose (kw : List Char) : List Char → Option (List Char)
  | [] => none
  | c :: rest =>
    if kwMatches chEqCI kw (c :: rest) then
      match lazyThrough chEq [')'] ((c :: rest).drop kw.length) with
      | some r => some r
      | none => if c = '\n' then none else kwThenClose kw rest
    else if c = '\n' then none
    else kwThenClose kw rest

/-- Anchored attempt of a pattern `\(lit.*?\)` (such as `\(feat\..*?\)`):
an opening parenthesis, the literal `lit`, then lazily anything up to the
first closing parenthesis. -/
def tryParenLit (lit : List Char) : List Char → Option (List Char)
  | [] => none
  | c :: rest =>
    if c = '(' && kwMatches chEq lit rest then
      lazyThrough chEq [')'] (rest.drop lit.length)
    else none

/-- Anchored attempt of a pattern `\(.*?kw.*?\)/i` (such as
`\(.*?version.*?\)/gi`). -/
def tryParenKw (kw : List Char) : List Char → Option (List Char)
  | [] => none
  | c :: rest => if c = '(' then kwThenClose kw rest else none

/-- Global regex replacement by the empty string: scan left to right, at each
position try the anchored pattern; on a match drop the matched span and
continue after it, otherwise keep the character.  `fuel` bounds the
recursion; `length + 1` is always sufficient because every match of the
patterns above consumes at least the opening parenthesis. -/
def replaceScan (tryAt : List Char → Option (List Char)) : Nat → List Char → List Char
  | 0, l => l
  | _ + 1, [] => []
  | fuel + 1, c :: rest =>
    match tryAt (c :: rest) with
    | some rem => replaceScan tryAt fuel rem
    | none => c :: replaceScan tryAt fuel rest

theorem dropWhile_length_le (p : Char → Bool) :
    ∀ l : List Char, (List.dropWhile p l).length ≤ l.length := by
  intro l
  induction l with
  | nil => simp [List.dropWhile]
  | cons c rest ih =>
    simp only [List.dropWhile]
    split
    · exact Nat.le_succ_of_le ih
    · simp

/-- Scan of the `.replace(/\s+/g, ' ')` step: the flag records whether the
previous character belonged to a `\s` run, so the first character of each
run emits one space and the rest of the run is skipped. -/
def collapseWsGo : Bool → List Char → List Char
  | _, [] => []
  | prevSpace, c :: rest =>
    if jsIsSpace c then
      if prevSpace then collapseWsGo true rest
      else ' ' :: collapseWsGo true rest
    else c :: collapseWsGo false rest

/-- Collapse every maximal run of `\s` characters to a single space, the
`.replace(/\s+/g, ' ')` step. -/
def collapseWs (l : List Char) : List Char := collapseWsGo false l

/-- Model of `str.trim()`: strip `\s` characters from both ends. -/
def jsTrimL (l : List Char) : List Char :=
  ((l.dropWhile jsIsSpace).reverse.dropWhile jsIsSpace).reverse

/-- Containment of a contiguous character sequence, the list-level model of
`String.prototype.includes`. -/
def containsSeq (pat : List Char) : List Char → Bool
  | [] => pat.isEmpty
  | c :: rest => kwMatches chEq pat (c :: rest) || containsSeq pat rest

/-- Model of `s.includes(sub)`. -/
def jsIncludes (sub s : String) : Bool := containsSeq sub.data s.data

namespace StreamingAdapter

/-- Embeds `normalizeString` of src/app/components/streaming-adapter.js
(lines 34-41): lower-case, remove `\(feat\..*?\)` matches, remove
punctuation (`[^\w\s]`), collapse whitespace, trim. -/
def normalizeString (str : String) : String :=
  if str.data.isEmpty then "" else
  let s0 := str.data.map jsCharLow
  let s1 := replaceScan (tryParenLit "feat.".data) (s0.length + 1) s0
  let s2 := s1.filter (fun c => jsIsWordChar c || jsIsSpace c)
  String.mk (jsTrimL (collapseWs s2))

/-- Embeds `createMatchKey` of streaming-adapter.js (lines 43-51), with the
"Just Dropped In" / "Kenny Rogers" special-case branch. -/
def createMatchKey (trackName artistName : String) : String :=
  if ¬trackName.data.isEmpty ∧ ¬artistName.data.isEmpty ∧
      jsIncludes "just dropped in" (jsToLower trackName) = true ∧
      jsIncludes "kenny rogers" (jsToLower artistName) = true then
    "just-dropped-in-kenny-rogers"
  else
    normalizeString trackName ++ "-" ++ normalizeString artistName

end StreamingAdapter

namespace PodcastRankings

/-- Embeds `normalizeString` of src/app/components/podcast-rankings.js
(lines 868-880): lower-case, remove the six parenthetical-qualifier regex
matches, remove punctuation, collapse whitespace, trim. -/
def normalizeString (str : String) : String :=
  if str.data.isEmpty then "" else
  let s0 := str.data.map jsCharLow
  let s1 := replaceScan (tryParenLit "feat.".data) (s0.length + 1) s0
  let s2 := replaceScan (tryParenLit "ft.".data) (s1.length + 1) s1
  let s3 := replaceScan (tryParenLit "with".data) (s2.length + 1) s2
  let s4 := replaceScan (tryParenKw "version".data) (s3.length + 1) s3
  let s5 := replaceScan (tryParenKw "remix".data) (s4.length + 1) s4
  let s6 := replaceScan (tryParenKw "edit".data) (s5.length + 1) s5
  let s7 := s6.filter (fun c => jsIsWordChar c || jsIsSpace c)
  String.mk (jsTrimL (collapseWs s7))

/-- Embeds `createMatchKey` of podcast-rankings.js (lines 883-885). -/
def createMatchKey (trackName artistName : String) : String :=
  normalizeString trackName ++ "-" ++ normalizeString artistName

end PodcastRankings

/-! ## Case behaviour of the match key (claim C6) -/

theorem charToNat_ofNat (m : Nat) (h : m < 0xd800) : (Char.ofNat m).toNat = m := by
  have hv : m.isValidChar := Or.inl h
  simp [Char.ofNat, hv, Char.ofNatAux, Char.toNat, UInt32.toNat]

/-- A character of the ASCII range, where the JS case mappings are simple
and character-wise. -/
def asciiChar (c : Char) : Bool := decide (c.toNat < 128)

/-- An ASCII-only string. -/
def asciiStr (s : String) : Bool := s.data.all asciiChar

theorem jsCharUp_ne_nil (c : Char) : jsCharUp c ≠ [] := by
  by_cases h1 : c.toNat = 223
  · simp [jsCharUp, h1]
  · by_cases h2 : 97 ≤ c.toNat ∧ c.toNat ≤ 122
    · simp [jsCharUp, h1, h2]
    · by_cases h3 : (224 ≤ c.toNat ∧ c.toNat ≤ 254) ∧ c.toNat ≠ 247
      · simp [jsCharUp, h1, h2, h3]
      · by_cases h4 : c.toNat = 255
        · simp [jsCharUp, h1, h2, h3, h4]
        · simp [jsCharUp, h1, h2, h3, h4]

theorem jsCharUp_ascii_low (c : Char) (h : c.toNat < 128) :
    (jsCharUp c).map jsCharLow = [jsCharLow c] := by
  by_cases h2 : 97 ≤ c.toNat ∧ c.toNat ≤ 122
  · have hup : jsCharUp c = [Char.ofNat (c.toNat - 32)] := by
      simp only [jsCharUp]
      rw [if_neg (by omega), if_pos h2]
    have ht : (Char.ofNat (c.toNat - 32)).toNat = c.toNat - 32 :=
      charToNat_ofNat _ (by omega)
    have hlowc : jsCharLow c = c := by
      simp only [jsCharLow]
      rw [if_neg (by omega), if_neg (by omega), if_neg (by omega)]
    rw [hup, hlowc]
    simp only [List.map_cons, List.map_nil]
    congr 1
    simp only [jsCharLow, ht]
    rw [if_pos (by omega)]
    have h4 : c.toNat - 32 + 32 = c.toNat := by omega
    rw [h4, Char.ofNat_toNat]
  · have hup : jsCharUp c = [c] := by
      simp only [jsCharUp]
      rw [if_neg (by omega), if_neg h2, if_neg (by omega), if_neg (by omega)]
    rw [hup]
    rfl

theorem flatten_map_jsCharLow (l : List Char) (h : l.all asciiChar = true) :
    ((l.map jsCharUp).flatten).map jsCharLow = l.map jsCharLow := by
  induction l with
  | nil => rfl
  | cons c rest ih =>
    rw [List.all_cons, Bool.and_eq_true] at h
    have hc : c.toNat < 128 := by
      have := h.1
      simpa [asciiChar] using this
    simp only [List.map_cons, List.flatten_cons, List.map_append, ih h.2,
      jsCharUp_ascii_low c hc, List.singleton_append]

theorem data_jsToUpper (s : String) :
    (jsToUpper s).data = (s.data.map jsCharUp).flatten := rfl

theorem jsToLower_jsToUpper (s : String) (h : asciiStr s = true) :
    jsToLower (jsToUpper s) = jsToLower s := by
  simp only [jsToLower, jsToUpper]
  rw [flatten_map_jsCharLow s.data h]

theorem isEmpty_data_jsToUpper (s : String) :
    (jsToUpper s).data.isEmpty = s.data.isEmpty := by
  rw [data_jsToUpper]
  cases hd : s.data with
  | nil => rfl
  | cons c rest =>
    simp only [List.map_cons, List.flatten_cons]
    cases hu : jsCharUp c with
    | nil => exact absurd hu (jsCharUp_ne_nil c)
    | cons x xs => rfl

theorem StreamingAdapter.normalizeStringSA_toUpper (s : String)
    (h : asciiStr s = true) :
    StreamingAdapter.normalizeString (jsToUpper s) = StreamingAdapter.normalizeString s := by
  have h1 : (jsToUpper s).data.isEmpty = s.data.isEmpty := isEmpty_data_jsToUpper s
  have h2 : ((jsToUpper s).data).map jsCharLow = s.data.map jsCharLow := by
    rw [data_jsToUpper]
    exact flatten_map_jsCharLow s.data h
  simp only [StreamingAdapter.normalizeString, h1, h2]

theorem PodcastRankings.normalizeStringPR_toUpper (s : String)
    (h : asciiStr s = true) :
    PodcastRankings.normalizeString (jsToUpper s) = PodcastRankings.normalizeString s := by
  have h1 : (jsToUpper s).data.isEmpty = s.data.isEmpty := isEmpty_data_jsToUpper s
  have h2 : ((jsToUpper s).data).map jsCharLow = s.data.map jsCharLow := by
    rw [data_jsToUpper]
    exact flatten_map_jsCharLow s.data h
  simp only [PodcastRankings.normalizeString, h1, h2]

/-- C6 (amended): over ASCII inputs — where the JS case mappings are simple
and character-wise — the match key of both source variants, including the
special-case override branch of the streaming-adapter variant, is invariant
under upper-casing its two inputs; outside ASCII the property fails at the
full case mapping `ß` → `"SS"` (see the counterexample). -/
theorem c6_matchKey_upper_invariant (t a : String)
    (ht : asciiStr t = true) (ha : asciiStr a = true) :
    StreamingAdapter.createMatchKey (jsToUpper t) (jsToUpper a) =
      StreamingAdapter.createMatchKey t a ∧
    PodcastRankings.createMatchKey (jsToUpper t) (jsToUpper a) =
      PodcastRankings.createMatchKey t a := by
  constructor
  · simp only [StreamingAdapter.createMatchKey, isEmpty_data_jsToUpper,
      jsToLower_jsToUpper t ht, jsToLower_jsToUpper a ha,
      StreamingAdapter.normalizeStringSA_toUpper t ht,
      StreamingAdapter.normalizeStringSA_toUpper a ha]
  · simp only [PodcastRankings.createMatchKey,
      PodcastRankings.normalizeStringPR_toUpper t ht,
      PodcastRankings.normalizeStringPR_toUpper a ha]

/-- Counterexample for C6 as stated: `toUpperCase` maps `ß` to the
two-character string `"SS"`; `normalizeString` keeps `ss` but strips `ß`
(the JS `\w` class is ASCII-only), so the match key of `"ß"` differs from
the match key of its upper-casing in both source variants. -/
theorem c6_matchKey_upper_counterexample :
    jsToUpper "ß" = "SS" ∧
    StreamingAdapter.createMatchKey (jsToUpper "ß") (jsToUpper "a") ≠
      StreamingAdapter.createMatchKey "ß" "a" ∧
    PodcastRankings.createMatchKey (jsToUpper "ß") (jsToUpper "a") ≠
      PodcastRankings.createMatchKey "ß" "a" := by
  decide

/-- Witness for the amended C6 at concrete ASCII strings. -/
theorem c6_matchKey_upper_invariant_witness :
    asciiStr "Stronger" = true ∧ asciiStr "Kanye West" = true ∧
    (StreamingAdapter.createMatchKey (jsToUpper "Stronger") (jsToUpper "Kanye West") =
        StreamingAdapter.createMatchKey "Stronger" "Kanye West" ∧
      PodcastRankings.createMatchKey (jsToUpper "Stronger") (jsToUpper "Kanye West") =
        PodcastRankings.createMatchKey "Stronger" "Kanye West") :=
  ⟨by decide, by decide,
    c6_matchKey_upper_invariant "Stronger" "Kanye West" (by decide) (by decide)⟩

/-! ## Canonical play events and the aggregation engine -/

/-- Canonical play event, the record shape produced by the adapters and
consumed by `calculatePlayStats` and the podcast query.  Optional string
fields model JS fields that may be `null`/`undefined`; an empty string is
falsy in JS, which `truthyStr` accounts for. -/
structure Entry where
  master_metadata_track_name : Option String := none
  master_metadata_album_artist_name : Option String := none
  master_metadata_album_album_name : Option String := none
  ts : Int := 0
  ms_played : Int := 0
  source : String := ""
  episode_show_name : Option String := none
  episode_name : Option String := none
  deriving DecidableEq, Repr

/-- JS truthiness of an optional string field: `null`, `undefined` and the
empty string are falsy. -/
def truthyStr : Option String → Bool
  | none => false
  | some s => !s.data.isEmpty

/-- Model of `v || d` for string fields: the first operand when truthy,
otherwise the default. -/
def orDefault (v : Option String) (d : String) : String :=
  match v with
  | none => d
  | some s => if s.data.isEmpty then d else s

/-- Lookup in an insertion-ordered association list, modelling property
access on a JS object used as a map. -/
def alookup {β : Type} (k : String) : List (String × β) → Option β
  | [] => none
  | (k', v) :: rest => if k' = k then some v else alookup k rest

/-- Update-or-insert on an insertion-ordered association list: apply `upd` to
the value at `k` when present, otherwise append `mk` at the end, the way
assigning to a fresh property appends a key to a JS object. -/
def jsUpsert {β : Type} (k : String) (upd : β → β) (mk : β) :
    List (String × β) → List (String × β)
  | [] => [(k, mk)]
  | (k', v) :: rest =>
    if k' = k then (k', upd v) :: rest else (k', v) :: jsUpsert k upd mk rest

/-- Model of `Set.prototype.add`: append when not already present. -/
def setAdd (x : String) (l : List String) : List String :=
  if x ∈ l then l else l ++ [x]

namespace StreamingAdapter

/-- Per-artist aggregate of `calculatePlayStats` (streaming-adapter.js
lines 94-107). -/
structure ArtistStat where
  name : String
  totalPlayed : Int
  playCount : Nat
  firstListen : Int
  deriving DecidableEq, Repr

/-- Per-album aggregate (lines 110-129); `trackCount` models the JS `Set` of
track names as an insertion-ordered duplicate-free list. -/
structure AlbumStat where
  name : String
  artist : String
  totalPlayed : Int
  playCount : Nat
  trackCount : List String
  firstListen : Int
  deriving DecidableEq, Repr

/-- Per-track aggregate kept in `trackMap` (lines 131-146). -/
structure TrackStat where
  key : String
  trackName : String
  artist : String
  albumName : String
  totalPlayed : Int
  playCount : Nat
  deriving DecidableEq, Repr

/-- Mutable state of the single `entries.forEach` pass of
`calculatePlayStats` (lines 53-147). -/
structure PlayState where
  songPlayHistory : List (String × List Int)
  artistStats : List (String × ArtistStat)
  albumStats : List (String × AlbumStat)
  trackMap : List (String × TrackStat)
  totalListeningTime : Int
  processedSongs : Nat
  shortPlays : Nat
  deriving DecidableEq, Repr

/-- Empty initial state of the pass. -/
def initState : PlayState :=
  { songPlayHistory := [], artistStats := [], albumStats := [], trackMap := [],
    totalListeningTime := 0, processedSongs := 0, shortPlays := 0 }

/-- Body of the `entries.forEach` callback of `calculatePlayStats`
(streaming-adapter.js lines 65-147), acting on one entry. -/
def stepEntry (st : PlayState) (entry : Entry) : PlayState :=
  let playTime := entry.ms_played
  if truthyStr entry.master_metadata_track_name = false ∨ playTime < 30000 then
    if playTime < 30000 then { st with shortPlays := st.shortPlays + 1 } else st
  else
    let trackName := (entry.master_metadata_track_name).getD ""
    let artistName := orDefault entry.master_metadata_album_artist_name "Unknown Artist"
    let albumName := orDefault entry.master_metadata_album_album_name "Unknown Album"
    let standardKey := trackName ++ "-" ++ artistName
    let matchKey := createMatchKey trackName artistName
    let timestamp := entry.ts
    { st with
      processedSongs := st.processedSongs + 1
      totalListeningTime := st.totalListeningTime + playTime
      songPlayHistory :=
        jsUpsert standardKey (fun h => h ++ [timestamp]) [timestamp] st.songPlayHistory
      artistStats :=
        jsUpsert artistName
          (fun a => { a with
            totalPlayed := a.totalPlayed + playTime
            playCount := a.playCount + 1
            firstListen := min a.firstListen timestamp })
          { name := artistName, totalPlayed := playTime, playCount := 1,
            firstListen := timestamp }
          st.artistStats
      albumStats :=
        if albumName.data.isEmpty = false ∧ artistName.data.isEmpty = false then
          jsUpsert (albumName ++ "-" ++ artistName)
            (fun a => { a with
              totalPlayed := a.totalPlayed + playTime
              playCount := a.playCount + 1
              trackCount := setAdd trackName a.trackCount
              firstListen := min a.firstListen timestamp })
            { name := albumName, artist := artistName, totalPlayed := playTime,
              playCount := 1, trackCount := setAdd trackName [],
              firstListen := timestamp }
            st.albumStats
        else st.albumStats
      trackMap :=
        jsUpsert matchKey
          (fun t => { t with
            totalPlayed := t.totalPlayed + playTime
            playCount := t.playCount + 1 })
          { key := standardKey, trackName := trackName, artist := artistName,
            albumName := albumName, totalPlayed := playTime, playCount := 1 }
          st.trackMap }

/-- State after folding `calculatePlayStats`'s single pass over `entries`. -/
def calcState (entries : List Entry) : PlayState :=
  entries.foldl stepEntry initState

/-- Result record of `calculatePlayStats` (lines 154-162). -/
structure PlayStatsResult where
  songs : List TrackStat
  artists : List (String × ArtistStat)
  albums : List (String × AlbumStat)
  playHistory : List (String × List Int)
  totalListeningTime : Int
  processedSongs : Nat
  shortPlays : Nat
  deriving DecidableEq, Repr

/-- Embeds `calculatePlayStats` of streaming-adapter.js (lines 53-163). -/
def calculatePlayStats (entries : List Entry) : PlayStatsResult :=
  let st := calcState entries
  { songs := st.trackMap.map (fun p => p.2)
    artists := st.artistStats
    albums := st.albumStats
    playHistory := st.songPlayHistory
    totalListeningTime := st.totalListeningTime
    processedSongs := st.processedSongs
    shortPlays := st.shortPlays }

end StreamingAdapter

namespace StreamingAdapter

/-! ### Spec-level characterization of the aggregation pass -/

/-- An entry survives the skip test of `calculatePlayStats` (line 69):
a truthy track name and at least 30000 ms played. -/
def includedEntry (e : Entry) : Bool :=
  truthyStr e.master_metadata_track_name && decide (30000 ≤ e.ms_played)

/-- The included entries, in input order. -/
def includedEntries (l : List Entry) : List Entry := l.filter includedEntry

/-- Track name used for an included entry. -/
def trackNameOf (e : Entry) : String := (e.master_metadata_track_name).getD ""

/-- Display artist of an entry (line 78). -/
def artistOf (e : Entry) : String :=
  orDefault e.master_metadata_album_artist_name "Unknown Artist"

/-- Display album of an entry (line 79). -/
def albumOf (e : Entry) : String :=
  orDefault e.master_metadata_album_album_name "Unknown Album"

/-- Standard (history) key of an entry (line 82). -/
def standardKeyOf (e : Entry) : String := trackNameOf e ++ "-" ++ artistOf e

/-- Match key of an entry (line 83). -/
def matchKeyOf (e : Entry) : String := createMatchKey (trackNameOf e) (artistOf e)

/-- Album aggregation key of an entry (line 111): the plain string join of
album name and artist name. -/
def albumKeyOf (e : Entry) : String := albumOf e ++ "-" ++ artistOf e

/-- Minimum of a list of timestamps in fold order (0 for an empty list,
which never occurs at use sites). -/
def minTs : List Int → Int
  | [] => 0
  | t :: rest => rest.foldl min t

/-- Total listening time of a list of entries. -/
def sumMs (l : List Entry) : Int := (l.map Entry.ms_played).sum

/-- Expected artist aggregate: derived from the included entries with the
given display artist. -/
def specArtist (l : List Entry) (a : String) : Option ArtistStat :=
  match (includedEntries l).filter (fun e => artistOf e = a) with
  | [] => none
  | e0 :: rest =>
    some { name := a, totalPlayed := sumMs (e0 :: rest),
           playCount := (e0 :: rest).length,
           firstListen := minTs ((e0 :: rest).map Entry.ts) }

/-- Expected album aggregate at a join key: derived from the included
entries whose join key matches; display fields come from the first one. -/
def specAlbum (l : List Entry) (k : String) : Option AlbumStat :=
  match (includedEntries l).filter (fun e => albumKeyOf e = k) with
  | [] => none
  | e0 :: rest =>
    some { name := albumOf e0, artist := artistOf e0,
           totalPlayed := sumMs (e0 :: rest),
           playCount := (e0 :: rest).length,
           trackCount := (e0 :: rest).foldl (fun s e => setAdd (trackNameOf e) s) [],
           firstListen := minTs ((e0 :: rest).map Entry.ts) }

/-- Expected track aggregate at a match key. -/
def specTrack (l : List Entry) (k : String) : Option TrackStat :=
  match (includedEntries l).filter (fun e => matchKeyOf e = k) with
  | [] => none
  | e0 :: rest =>
    some { key := standardKeyOf e0, trackName := trackNameOf e0,
           artist := artistOf e0, albumName := albumOf e0,
           totalPlayed := sumMs (e0 :: rest), playCount := (e0 :: rest).length }

/-- Expected play history at a standard key: the timestamps of the included
entries with that key, in input order. -/
def specHistory (l : List Entry) (k : String) : Option (List Int) :=
  match (includedEntries l).filter (fun e => standardKeyOf e = k) with
  | [] => none
  | e0 :: rest => some ((e0 :: rest).map Entry.ts)

theorem orDefault_nonempty (v : Option String) (d : String)
    (hd : d.data.isEmpty = false) : (orDefault v d).data.isEmpty = false := by
  unfold orDefault
  cases v with
  | none => exact hd
  | some s =>
    cases hb : s.data.isEmpty with
    | true => simp [hb, hd]
    | false => simp [hb]

theorem includedEntry_iff (e : Entry) :
    includedEntry e = true ↔
      truthyStr e.master_metadata_track_name = true ∧ 30000 ≤ e.ms_played := by
  simp [includedEntry]

/-- When the skip test fires, the step only possibly bumps the short-play
tally. -/
theorem stepEntry_of_not_included (st : PlayState) (e : Entry)
    (h : includedEntry e = false) :
    stepEntry st e =
      if e.ms_played < 30000 then { st with shortPlays := st.shortPlays + 1 }
      else st := by
  have h' : truthyStr e.master_metadata_track_name = false ∨ e.ms_played < 30000 := by
    rcases Bool.eq_false_or_eq_true (truthyStr e.master_metadata_track_name) with ht | ht
    · right
      by_contra hm
      have hinc : includedEntry e = true := by
        simp [includedEntry, ht]
        omega
      simp [hinc] at h
    · exact Or.inl ht
  unfold stepEntry
  rw [if_pos h']

/-- When the entry is included, the step performs the full update of
lines 74-146. -/
theorem stepEntry_of_included (st : PlayState) (e : Entry)
    (h : includedEntry e = true) :
    stepEntry st e =
      { st with
        processedSongs := st.processedSongs + 1
        totalListeningTime := st.totalListeningTime + e.ms_played
        songPlayHistory :=
          jsUpsert (standardKeyOf e) (fun hst => hst ++ [e.ts]) [e.ts]
            st.songPlayHistory
        artistStats :=
          jsUpsert (artistOf e)
            (fun a => { a with
              totalPlayed := a.totalPlayed + e.ms_played
              playCount := a.playCount + 1
              firstListen := min a.firstListen e.ts })
            { name := artistOf e, totalPlayed := e.ms_played, playCount := 1,
              firstListen := e.ts }
            st.artistStats
        albumStats :=
          jsUpsert (albumKeyOf e)
            (fun a => { a with
              totalPlayed := a.totalPlayed + e.ms_played
              playCount := a.playCount + 1
              trackCount := setAdd (trackNameOf e) a.trackCount
              firstListen := min a.firstListen e.ts })
            { name := albumOf e, artist := artistOf e, totalPlayed := e.ms_played,
              playCount := 1, trackCount := setAdd (trackNameOf e) [],
              firstListen := e.ts }
            st.albumStats
        trackMap :=
          jsUpsert (matchKeyOf e)
            (fun t => { t with
              totalPlayed := t.totalPlayed + e.ms_played
              playCount := t.playCount + 1 })
            { key := standardKeyOf e, trackName := trackNameOf e,
              artist := artistOf e, albumName := albumOf e,
              totalPlayed := e.ms_played, playCount := 1 }
            st.trackMap } := by
  rcases (includedEntry_iff e).mp h with ⟨ht, hm⟩
  have hcond : ¬(truthyStr e.master_metadata_track_name = false ∨ e.ms_played < 30000) := by
    push_neg
    exact ⟨by simp [ht], by omega⟩
  have halb : (orDefault e.master_metadata_album_album_name "Unknown Album").data.isEmpty
      = false ∧
      (orDefault e.master_metadata_album_artist_name "Unknown Artist").data.isEmpty
      = false :=
    ⟨orDefault_nonempty _ _ rfl, orDefault_nonempty _ _ rfl⟩
  unfold stepEntry
  rw [if_neg hcond]
  simp only [trackNameOf, artistOf, albumOf, standardKeyOf, matchKeyOf, albumKeyOf]
  rw [if_pos halb]

end StreamingAdapter

theorem alookup_jsUpsert {β : Type} (k k' : String) (upd : β → β) (mk : β)
    (l : List (String × β)) :
    alookup k' (jsUpsert k upd mk l) =
      if k = k' then
        match alookup k l with
        | some v => some (upd v)
        | none => some mk
      else alookup k' l := by
  induction l with
  | nil =>
    by_cases h : k = k'
    · subst h
      simp [jsUpsert, alookup]
    · have hk : ¬k = k' := h
      have hk2 : ¬k' = k := fun hh => h hh.symm
      simp [jsUpsert, alookup, hk, hk2]
  | cons p rest ih =>
    obtain ⟨k0, v0⟩ := p
    by_cases h0 : k0 = k
    · subst h0
      by_cases h1 : k0 = k'
      · subst h1
        simp [jsUpsert, alookup]
      · simp [jsUpsert, alookup, h1]
    · by_cases h1 : k0 = k'
      · subst h1
        have hk : ¬k = k0 := fun hh => h0 hh.symm
        simp [jsUpsert, h0, alookup, hk]
      · simp [jsUpsert, h0, alookup, h1, ih]

namespace StreamingAdapter

theorem stepEntry_shortPlays (st : PlayState) (e : Entry) :
    (stepEntry st e).shortPlays =
      if e.ms_played < 30000 then st.shortPlays + 1 else st.shortPlays := by
  cases hinc : includedEntry e with
  | false =>
    rw [stepEntry_of_not_included st e hinc]
    by_cases hms : e.ms_played < 30000
    · simp [hms]
    · simp [hms]
  | true =>
    rw [stepEntry_of_included st e hinc]
    have hms : ¬e.ms_played < 30000 := by
      have := ((includedEntry_iff e).mp hinc).2
      omega
    simp [hms]

theorem stepEntry_processedSongs (st : PlayState) (e : Entry) :
    (stepEntry st e).processedSongs =
      if includedEntry e = true then st.processedSongs + 1 else st.processedSongs := by
  cases hinc : includedEntry e with
  | false =>
    rw [stepEntry_of_not_included st e hinc]
    by_cases hms : e.ms_played < 30000 <;> simp [hms]
  | true =>
    rw [stepEntry_of_included st e hinc]
    simp

theorem stepEntry_totalListeningTime (st : PlayState) (e : Entry) :
    (stepEntry st e).totalListeningTime =
      if includedEntry e = true then st.totalListeningTime + e.ms_played
      else st.totalListeningTime := by
  cases hinc : includedEntry e with
  | false =>
    rw [stepEntry_of_not_included st e hinc]
    by_cases hms : e.ms_played < 30000 <;> simp [hms]
  | true =>
    rw [stepEntry_of_included st e hinc]
    simp

theorem foldl_shortPlays (l : List Entry) :
    ∀ st : PlayState, (l.foldl stepEntry st).shortPlays =
      st.shortPlays + l.countP (fun e => decide (e.ms_played < 30000)) := by
  induction l with
  | nil => intro st; simp
  | cons e rest ih =>
    intro st
    rw [List.foldl_cons, ih, stepEntry_shortPlays]
    by_cases hms : e.ms_played < 30000
    · simp [List.countP_cons, hms]
      omega
    · simp [List.countP_cons, hms]

theorem foldl_processedSongs (l : List Entry) :
    ∀ st : PlayState, (l.foldl stepEntry st).processedSongs =
      st.processedSongs + l.countP includedEntry := by
  induction l with
  | nil => intro st; simp
  | cons e rest ih =>
    intro st
    rw [List.foldl_cons, ih, stepEntry_processedSongs]
    cases hinc : includedEntry e
    · simp [List.countP_cons, hinc]
    · simp [List.countP_cons, hinc]
      omega

theorem foldl_totalListeningTime (l : List Entry) :
    ∀ st : PlayState, (l.foldl stepEntry st).totalListeningTime =
      st.totalListeningTime + sumMs (includedEntries l) := by
  induction l with
  | nil => intro st; simp [includedEntries, sumMs]
  | cons e rest ih =>
    intro st
    rw [List.foldl_cons, ih, stepEntry_totalListeningTime]
    cases hinc : includedEntry e
    · simp [includedEntries, sumMs, hinc]
    · simp [includedEntries, sumMs, hinc]
      ring

/-- The running short-play tally counts exactly the events with
`ms_played < 30000`, whatever their other fields. -/
theorem calcState_shortPlays (l : List Entry) :
    (calcState l).shortPlays = l.countP (fun e => decide (e.ms_played < 30000)) := by
  rw [calcState, foldl_shortPlays]
  simp [initState]

/-- The processed-song counter counts exactly the included entries. -/
theorem calcState_processedSongs (l : List Entry) :
    (calcState l).processedSongs = (includedEntries l).length := by
  rw [calcState, foldl_processedSongs]
  simp [initState, includedEntries, List.countP_eq_length_filter]

/-- The total listening time sums `ms_played` over the included entries. -/
theorem calcState_totalListeningTime (l : List Entry) :
    (calcState l).totalListeningTime = sumMs (includedEntries l) := by
  rw [calcState, foldl_totalListeningTime]
  simp [initState]

end StreamingAdapter

namespace StreamingAdapter

theorem includedEntries_append_one (l : List Entry) (e : Entry) :
    includedEntries (l ++ [e]) =
      includedEntries l ++ if includedEntry e = true then [e] else [] := by
  simp [includedEntries, List.filter_append]
  cases hinc : includedEntry e <;> simp [hinc, List.filter]

theorem sumMs_append (l1 l2 : List Entry) :
    sumMs (l1 ++ l2) = sumMs l1 + sumMs l2 := by
  simp [sumMs]

theorem minTs_append_one (l : List Int) (t : Int) (h : l ≠ []) :
    minTs (l ++ [t]) = min (minTs l) t := by
  cases l with
  | nil => exact absurd rfl h
  | cons a rest => simp [minTs, List.foldl_append]

theorem calcState_append_one (l : List Entry) (e : Entry) :
    calcState (l ++ [e]) = stepEntry (calcState l) e := by
  simp [calcState, List.foldl_append]

/-- Lookup characterization of the artist map: the aggregate at a display
artist name is built from exactly the included entries with that display
artist. -/
theorem alookup_artistStats (l : List Entry) (a : String) :
    alookup a (calcState l).artistStats = specArtist l a := by
  induction l using List.reverseRecOn with
  | nil => simp [calcState, initState, alookup, specArtist, includedEntries]
  | append_singleton l e ih =>
    rw [calcState_append_one]
    cases hinc : includedEntry e with
    | false =>
      rw [stepEntry_of_not_included _ _ hinc]
      have hspec : specArtist (l ++ [e]) a = specArtist l a := by
        simp [specArtist, includedEntries_append_one, hinc]
      rw [hspec]
      by_cases hms : e.ms_played < 30000 <;> simp [hms, ih]
    | true =>
      rw [stepEntry_of_included _ _ hinc]
      simp only
      rw [alookup_jsUpsert]
      have hfilter : (includedEntries (l ++ [e])).filter (fun x => artistOf x = a) =
          (includedEntries l).filter (fun x => artistOf x = a) ++
            if artistOf e = a then [e] else [] := by
        rw [includedEntries_append_one, hinc, List.filter_append]
        by_cases ha : artistOf e = a <;> simp [ha]
      by_cases ha : artistOf e = a
      · rw [if_pos ha, ha, ih]
        rcases hF : (includedEntries l).filter (fun x => artistOf x = a) with _ | ⟨e0, rest⟩
        · rw [show specArtist l a = none from by simp [specArtist, hF]]
          simp [specArtist, hfilter, hF, ha, sumMs, minTs]
        · rw [show specArtist l a =
              some { name := a, totalPlayed := sumMs (e0 :: rest),
                     playCount := (e0 :: rest).length,
                     firstListen := minTs ((e0 :: rest).map Entry.ts) } from by
            simp [specArtist, hF]]
          simp only [specArtist, hfilter, hF, ha, if_pos rfl, List.cons_append]
          simp [sumMs_append,
            minTs_append_one _ _ (by simp : (e0 :: rest).map Entry.ts ≠ []),
            sumMs, minTs]
          ring
      · rw [if_neg ha]
        rw [ih]
        simp [specArtist, hfilter, ha]

end StreamingAdapter

namespace StreamingAdapter

/-- Lookup characterization of the album map: the aggregate under a join key
`albumName ++ "-" ++ artistName` is built from exactly the included entries
whose join key equals it. -/
theorem alookup_albumStats (l : List Entry) (k : String) :
    alookup k (calcState l).albumStats = specAlbum l k := by
  induction l using List.reverseRecOn with
  | nil => simp [calcState, initState, alookup, specAlbum, includedEntries]
  | append_singleton l e ih =>
    rw [calcState_append_one]
    cases hinc : includedEntry e with
    | false =>
      rw [stepEntry_of_not_included _ _ hinc]
      have hspec : specAlbum (l ++ [e]) k = specAlbum l k := by
        simp [specAlbum, includedEntries_append_one, hinc]
      rw [hspec]
      by_cases hms : e.ms_played < 30000 <;> simp [hms, ih]
    | true =>
      rw [stepEntry_of_included _ _ hinc]
      simp only
      rw [alookup_jsUpsert]
      have hfilter : (includedEntries (l ++ [e])).filter (fun x => albumKeyOf x = k) =
          (includedEntries l).filter (fun x => albumKeyOf x = k) ++
            if albumKeyOf e = k then [e] else [] := by
        rw [includedEntries_append_one, hinc, List.filter_append]
        by_cases ha : albumKeyOf e = k <;> simp [ha]
      by_cases ha : albumKeyOf e = k
      · rw [if_pos ha, ha, ih]
        rcases hF : (includedEntries l).filter (fun x => albumKeyOf x = k) with _ | ⟨e0, rest⟩
        · rw [show specAlbum l k = none from by simp [specAlbum, hF]]
          simp [specAlbum, hfilter, hF, ha, sumMs, minTs]
        · rw [show specAlbum l k =
              some { name := albumOf e0, artist := artistOf e0,
                     totalPlayed := sumMs (e0 :: rest),
                     playCount := (e0 :: rest).length,
                     trackCount :=
                       (e0 :: rest).foldl (fun s x => setAdd (trackNameOf x) s) [],
                     firstListen := minTs ((e0 :: rest).map Entry.ts) } from by
            simp [specAlbum, hF]]
          simp only [specAlbum, hfilter, hF, ha, if_pos rfl, List.cons_append]
          simp [sumMs_append,
            minTs_append_one _ _ (by simp : (e0 :: rest).map Entry.ts ≠ []),
            sumMs, minTs, List.foldl_append]
          ring
      · rw [if_neg ha]
        rw [ih]
        simp [specAlbum, hfilter, ha]

/-- Lookup characterization of the track map: the aggregate under a match
key is built from exactly the included entries with that match key, its
display fields coming from the first of them. -/
theorem alookup_trackMap (l : List Entry) (k : String) :
    alookup k (calcState l).trackMap = specTrack l k := by
  induction l using List.reverseRecOn with
  | nil => simp [calcState, initState, alookup, specTrack, includedEntries]
  | append_singleton l e ih =>
    rw [calcState_append_one]
    cases hinc : includedEntry e with
    | false =>
      rw [stepEntry_of_not_included _ _ hinc]
      have hspec : specTrack (l ++ [e]) k = specTrack l k := by
        simp [specTrack, includedEntries_append_one, hinc]
      rw [hspec]
      by_cases hms : e.ms_played < 30000 <;> simp [hms, ih]
    | true =>
      rw [stepEntry_of_included _ _ hinc]
      simp only
      rw [alookup_jsUpsert]
      have hfilter : (includedEntries (l ++ [e])).filter (fun x => matchKeyOf x = k) =
          (includedEntries l).filter (fun x => matchKeyOf x = k) ++
            if matchKeyOf e = k then [e] else [] := by
        rw [includedEntries_append_one, hinc, List.filter_append]
        by_cases ha : matchKeyOf e = k <;> simp [ha]
      by_cases ha : matchKeyOf e = k
      · rw [if_pos ha, ha, ih]
        rcases hF : (includedEntries l).filter (fun x => matchKeyOf x = k) with _ | ⟨e0, rest⟩
        · rw [show specTrack l k = none from by simp [specTrack, hF]]
          simp [specTrack, hfilter, hF, ha, sumMs]
        · rw [show specTrack l k =
              some { key := standardKeyOf e0, trackName := trackNameOf e0,
                     artist := artistOf e0, albumName := albumOf e0,
                     totalPlayed := sumMs (e0 :: rest),
                     playCount := (e0 :: rest).length } from by
            simp [specTrack, hF]]
          simp only [specTrack, hfilter, hF, ha, if_pos rfl, List.cons_append]
          simp [sumMs_append, sumMs]
          ring
      · rw [if_neg ha]
        rw [ih]
        simp [specTrack, hfilter, ha]

/-- Lookup characterization of the play history: the timestamp list under a
standard key collects, in encounter order, the timestamps of exactly the
included entries with that standard key. -/
theorem alookup_songPlayHistory (l : List Entry) (k : String) :
    alookup k (calcState l).songPlayHistory = specHistory l k := by
  induction l using List.reverseRecOn with
  | nil => simp [calcState, initState, alookup, specHistory, includedEntries]
  | append_singleton l e ih =>
    rw [calcState_append_one]
    cases hinc : includedEntry e with
    | false =>
      rw [stepEntry_of_not_included _ _ hinc]
      have hspec : specHistory (l ++ [e]) k = specHistory l k := by
        simp [specHistory, includedEntries_append_one, hinc]
      rw [hspec]
      by_cases hms : e.ms_played < 30000 <;> simp [hms, ih]
    | true =>
      rw [stepEntry_of_included _ _ hinc]
      simp only
      rw [alookup_jsUpsert]
      have hfilter : (includedEntries (l ++ [e])).filter (fun x => standardKeyOf x = k) =
          (includedEntries l).filter (fun x => standardKeyOf x = k) ++
            if standardKeyOf e = k then [e] else [] := by
        rw [includedEntries_append_one, hinc, List.filter_append]
        by_cases ha : standardKeyOf e = k <;> simp [ha]
      by_cases ha : standardKeyOf e = k
      · rw [if_pos ha, ha, ih]
        rcases hF : (includedEntries l).filter (fun x => standardKeyOf x = k)
          with _ | ⟨e0, rest⟩
        · rw [show specHistory l k = none from by simp [specHistory, hF]]
          simp [specHistory, hfilter, hF, ha]
        · rw [show specHistory l k = some ((e0 :: rest).map Entry.ts) from by
            simp [specHistory, hF]]
          simp [specHistory, hfilter, hF, ha]
      · rw [if_neg ha]
        rw [ih]
        simp [specHistory, hfilter, ha]

end StreamingAdapter

namespace StreamingAdapter

theorem calcState_append (xs ys : List Entry) :
    calcState (xs ++ ys) = ys.foldl stepEntry (calcState xs) := by
  simp [calcState, List.foldl_append]

theorem includedEntry_false_of_short (e : Entry) (h : e.ms_played < 30000) :
    includedEntry e = false := by
  simp [includedEntry]
  intro
  omega

theorem stepEntry_sp_shift (st : PlayState) (n : Nat) (e : Entry) :
    stepEntry { st with shortPlays := n } e =
      { stepEntry st e with
        shortPlays := if e.ms_played < 30000 then n + 1 else n } := by
  cases hinc : includedEntry e with
  | false =>
    rw [stepEntry_of_not_included _ _ hinc, stepEntry_of_not_included _ _ hinc]
    by_cases hms : e.ms_played < 30000 <;> simp [hms]
  | true =>
    rw [stepEntry_of_included _ _ hinc, stepEntry_of_included _ _ hinc]
    have hms : ¬e.ms_played < 30000 := by
      have := ((includedEntry_iff e).mp hinc).2
      omega
    simp [hms]

theorem foldl_sp_shift (l : List Entry) :
    ∀ (st : PlayState) (n : Nat),
      l.foldl stepEntry { st with shortPlays := n } =
        { l.foldl stepEntry st with
          shortPlays := n + l.countP (fun e => decide (e.ms_played < 30000)) } := by
  induction l with
  | nil => intro st n; simp
  | cons e rest ih =>
    intro st n
    rw [List.foldl_cons, List.foldl_cons, stepEntry_sp_shift, ih]
    by_cases hms : e.ms_played < 30000
    · rw [if_pos hms]
      have hc : (n + 1) + rest.countP (fun e => decide (e.ms_played < 30000)) =
          n + (e :: rest).countP (fun e => decide (e.ms_played < 30000)) := by
        simp [List.countP_cons, hms]
        omega
      rw [hc]
    · rw [if_neg hms]
      have hc : n + rest.countP (fun e => decide (e.ms_played < 30000)) =
          n + (e :: rest).countP (fun e => decide (e.ms_played < 30000)) := by
        simp [List.countP_cons, hms]
      rw [hc]

end StreamingAdapter

namespace StreamingAdapter

/-- C1: an event with `ms_played < 30000`, wherever it sits in the input
sequence, contributes nothing to any aggregate, history or running total of
`calculatePlayStats` — the whole result record is unchanged — except that it
increments the short-play tally; and an event with a truthy track name and
`ms_played ≥ 30000` is counted in `processedSongs` and adds its `ms_played`
to `totalListeningTime`. -/
theorem c1_short_play_exclusion (l₁ l₂ : List Entry) (e : Entry) :
    (e.ms_played < 30000 →
      calculatePlayStats (l₁ ++ e :: l₂) =
        { calculatePlayStats (l₁ ++ l₂) with
          shortPlays := (calculatePlayStats (l₁ ++ l₂)).shortPlays + 1 }) ∧
    (truthyStr e.master_metadata_track_name = true → 30000 ≤ e.ms_played →
      (calculatePlayStats (l₁ ++ e :: l₂)).processedSongs =
          (calculatePlayStats (l₁ ++ l₂)).processedSongs + 1 ∧
      (calculatePlayStats (l₁ ++ e :: l₂)).totalListeningTime =
          (calculatePlayStats (l₁ ++ l₂)).totalListeningTime + e.ms_played) := by
  constructor
  · intro hms
    have hni : includedEntry e = false := includedEntry_false_of_short e hms
    have hstate : calcState (l₁ ++ e :: l₂) =
        { calcState (l₁ ++ l₂) with
          shortPlays := (calcState (l₁ ++ l₂)).shortPlays + 1 } := by
      have h1 : l₁ ++ e :: l₂ = l₁ ++ ([e] ++ l₂) := by simp
      rw [h1, calcState_append, List.foldl_append, List.foldl_cons, List.foldl_nil,
        stepEntry_of_not_included _ _ hni, if_pos hms]
      rw [foldl_sp_shift, calcState_append l₁ l₂, foldl_shortPlays]
      have h3 : (calcState l₁).shortPlays + 1 +
          l₂.countP (fun e => decide (e.ms_played < 30000)) =
          ((calcState l₁).shortPlays +
            l₂.countP (fun e => decide (e.ms_played < 30000))) + 1 := by omega
      rw [h3]
    simp only [calculatePlayStats, hstate]
  · intro ht hm
    have hinc : includedEntry e = true := by simp [includedEntry, ht, hm]
    have hfilter : includedEntries (l₁ ++ e :: l₂) =
        includedEntries l₁ ++ e :: includedEntries l₂ := by
      simp [includedEntries, List.filter_append, List.filter_cons, hinc]
    have hfilter2 : includedEntries (l₁ ++ l₂) =
        includedEntries l₁ ++ includedEntries l₂ := by
      simp [includedEntries, List.filter_append]
    constructor
    · simp only [calculatePlayStats, calcState_processedSongs, hfilter, hfilter2]
      simp
      omega
    · simp only [calculatePlayStats, calcState_totalListeningTime, hfilter, hfilter2]
      simp [sumMs]
      ring

end StreamingAdapter

namespace StreamingAdapter

/-- Sample event: a 1-second play (below the 30-second threshold). -/
def sampleShort : Entry :=
  { master_metadata_track_name := some "Song A",
    master_metadata_album_artist_name := some "Artist X",
    ts := 1000, ms_played := 1000 }

/-- Sample event: a 200-second play of the same track. -/
def sampleLong : Entry :=
  { master_metadata_track_name := some "Song A",
    master_metadata_album_artist_name := some "Artist X",
    ts := 2000, ms_played := 200000 }

/-- Sample event: a 250-second play of the same track. -/
def sampleLong2 : Entry :=
  { master_metadata_track_name := some "Song A",
    master_metadata_album_artist_name := some "Artist X",
    ts := 3000, ms_played := 250000 }

end StreamingAdapter

/-- Witness for C1 at concrete events. -/
theorem c1_short_play_exclusion_witness :
    (StreamingAdapter.calculatePlayStats
        ([StreamingAdapter.sampleLong] ++ StreamingAdapter.sampleShort :: []) =
      { StreamingAdapter.calculatePlayStats ([StreamingAdapter.sampleLong] ++ []) with
        shortPlays :=
          (StreamingAdapter.calculatePlayStats
            ([StreamingAdapter.sampleLong] ++ [])).shortPlays + 1 }) ∧
    (StreamingAdapter.calculatePlayStats
        ([] ++ StreamingAdapter.sampleLong :: [])).processedSongs =
      (StreamingAdapter.calculatePlayStats ([] ++ [])).processedSongs + 1 ∧
    (StreamingAdapter.calculatePlayStats
        ([] ++ StreamingAdapter.sampleLong :: [])).totalListeningTime =
      (StreamingAdapter.calculatePlayStats ([] ++ [])).totalListeningTime + 200000 :=
  ⟨(StreamingAdapter.c1_short_play_exclusion [StreamingAdapter.sampleLong] []
      StreamingAdapter.sampleShort).1 (by decide),
   ((StreamingAdapter.c1_short_play_exclusion [] []
      StreamingAdapter.sampleLong).2 (by decide) (by decide)).1,
   ((StreamingAdapter.c1_short_play_exclusion [] []
      StreamingAdapter.sampleLong).2 (by decide) (by decide)).2⟩

namespace StreamingAdapter

theorem foldl_min_le_init (rest : List Int) :
    ∀ t : Int, rest.foldl min t ≤ t := by
  induction rest with
  | nil => intro t; simp
  | cons a r ih =>
    intro t
    calc r.foldl min (min t a) ≤ min t a := ih (min t a)
    _ ≤ t := min_le_left _ _

theorem foldl_min_le_mem (rest : List Int) :
    ∀ (t x : Int), x ∈ rest → rest.foldl min t ≤ x := by
  induction rest with
  | nil => intro t x hx; simp at hx
  | cons a r ih =>
    intro t x hx
    rcases List.mem_cons.mp hx with h | h
    · subst h
      calc r.foldl min (min t x) ≤ min t x := foldl_min_le_init r _
      _ ≤ x := min_le_right _ _
    · exact ih (min t a) x h

theorem foldl_min_mem (rest : List Int) :
    ∀ t : Int, rest.foldl min t ∈ t :: rest := by
  induction rest with
  | nil => intro t; simp
  | cons a r ih =>
    intro t
    rw [List.foldl_cons]
    have h := ih (min t a)
    rcases List.mem_cons.mp h with h1 | h1
    · rw [h1]
      rcases min_choice t a with hc | hc <;> rw [hc] <;> simp
    · simp only [List.mem_cons]
      right
      right
      exact h1

theorem minTs_mem (l : List Int) (h : l ≠ []) : minTs l ∈ l := by
  cases l with
  | nil => exact absurd rfl h
  | cons t rest => exact foldl_min_mem rest t

theorem minTs_le (l : List Int) (x : Int) (hx : x ∈ l) : minTs l ≤ x := by
  cases l with
  | nil => simp at hx
  | cons t rest =>
    rcases List.mem_cons.mp hx with h | h
    · subst h
      exact foldl_min_le_init rest x
    · exact foldl_min_le_mem rest t x h

theorem minTs_perm (xs ys : List Int) (h : xs.Perm ys) : minTs xs = minTs ys := by
  cases hx : xs with
  | nil =>
    have : ys = [] := by
      subst hx
      exact h.nil_eq.symm
    rw [this]
  | cons t rest =>
    subst hx
    have hys : ys ≠ [] := by
      intro hy
      subst hy
      exact absurd h.symm.nil_eq (by simp)
    apply le_antisymm
    · exact minTs_le _ _ (h.mem_iff.mpr (minTs_mem ys hys))
    · exact minTs_le _ _ (h.mem_iff.mp (minTs_mem (t :: rest) (by simp)))

/-- Order-insensitive projection of an artist aggregate. -/
def artistTotals (a : ArtistStat) : Int × Nat × Int :=
  (a.totalPlayed, a.playCount, a.firstListen)

/-- Order-insensitive projection of an album aggregate. -/
def albumTotals (a : AlbumStat) : Int × Nat × Int :=
  (a.totalPlayed, a.playCount, a.firstListen)

/-- Order-insensitive projection of a track aggregate. -/
def trackTotals (t : TrackStat) : Int × Nat :=
  (t.totalPlayed, t.playCount)

theorem sumMs_perm (xs ys : List Entry) (h : xs.Perm ys) : sumMs xs = sumMs ys :=
  (h.map Entry.ms_played).sum_eq

end StreamingAdapter

namespace StreamingAdapter

theorem specArtist_perm (l l' : List Entry) (h : l.Perm l') (a : String) :
    (specArtist l a).map artistTotals = (specArtist l' a).map artistTotals := by
  have hincl : (includedEntries l).Perm (includedEntries l') := h.filter includedEntry
  have hF : ((includedEntries l).filter (fun e => artistOf e = a)).Perm
      ((includedEntries l').filter (fun e => artistOf e = a)) := hincl.filter _
  rcases hE : (includedEntries l).filter (fun e => artistOf e = a) with _ | ⟨e0, rest⟩
  · rw [hE] at hF
    have hE' : (includedEntries l').filter (fun e => artistOf e = a) = [] :=
      hF.nil_eq.symm
    simp [specArtist, hE, hE']
  · rw [hE] at hF
    rcases hE' : (includedEntries l').filter (fun e => artistOf e = a)
      with _ | ⟨e0', rest'⟩
    · rw [hE'] at hF
      exact absurd hF.symm.nil_eq (by simp)
    · rw [hE'] at hF
      simp only [specArtist, hE, hE', Option.map_some', artistTotals]
      have h1 : sumMs (e0 :: rest) = sumMs (e0' :: rest') := sumMs_perm _ _ hF
      have h2 : (e0 :: rest).length = (e0' :: rest').length := hF.length_eq
      have h3 : minTs ((e0 :: rest).map Entry.ts) = minTs ((e0' :: rest').map Entry.ts) :=
        minTs_perm _ _ (hF.map Entry.ts)
      rw [h1, h2, h3]

theorem specAlbum_perm (l l' : List Entry) (h : l.Perm l') (k : String) :
    (specAlbum l k).map albumTotals = (specAlbum l' k).map albumTotals := by
  have hincl : (includedEntries l).Perm (includedEntries l') := h.filter includedEntry
  have hF : ((includedEntries l).filter (fun e => albumKeyOf e = k)).Perm
      ((includedEntries l').filter (fun e => albumKeyOf e = k)) := hincl.filter _
  rcases hE : (includedEntries l).filter (fun e => albumKeyOf e = k) with _ | ⟨e0, rest⟩
  · rw [hE] at hF
    have hE' : (includedEntries l').filter (fun e => albumKeyOf e = k) = [] :=
      hF.nil_eq.symm
    simp [specAlbum, hE, hE']
  · rw [hE] at hF
    rcases hE' : (includedEntries l').filter (fun e => albumKeyOf e = k)
      with _ | ⟨e0', rest'⟩
    · rw [hE'] at hF
      exact absurd hF.symm.nil_eq (by simp)
    · rw [hE'] at hF
      simp only [specAlbum, hE, hE', Option.map_some', albumTotals]
      have h1 : sumMs (e0 :: rest) = sumMs (e0' :: rest') := sumMs_perm _ _ hF
      have h2 : (e0 :: rest).length = (e0' :: rest').length := hF.length_eq
      have h3 : minTs ((e0 :: rest).map Entry.ts) = minTs ((e0' :: rest').map Entry.ts) :=
        minTs_perm _ _ (hF.map Entry.ts)
      rw [h1, h2, h3]

theorem specTrack_perm (l l' : List Entry) (h : l.Perm l') (k : String) :
    (specTrack l k).map trackTotals = (specTrack l' k).map trackTotals := by
  have hincl : (includedEntries l).Perm (includedEntries l') := h.filter includedEntry
  have hF : ((includedEntries l).filter (fun e => matchKeyOf e = k)).Perm
      ((includedEntries l').filter (fun e => matchKeyOf e = k)) := hincl.filter _
  rcases hE : (includedEntries l).filter (fun e => matchKeyOf e = k) with _ | ⟨e0, rest⟩
  · rw [hE] at hF
    have hE' : (includedEntries l').filter (fun e => matchKeyOf e = k) = [] :=
      hF.nil_eq.symm
    simp [specTrack, hE, hE']
  · rw [hE] at hF
    rcases hE' : (includedEntries l').filter (fun e => matchKeyOf e = k)
      with _ | ⟨e0', rest'⟩
    · rw [hE'] at hF
      exact absurd hF.symm.nil_eq (by simp)
    · rw [hE'] at hF
      simp only [specTrack, hE, hE', Option.map_some', trackTotals]
      have h1 : sumMs (e0 :: rest) = sumMs (e0' :: rest') := sumMs_perm _ _ hF
      have h2 : (e0 :: rest).length = (e0' :: rest').length := hF.length_eq
      rw [h1, h2]

/-- C2: shuffling the input events leaves every per-track, per-artist and
per-album `totalPlayed`, `playCount` and `firstListen`, and all running
totals of `calculatePlayStats`, unchanged.  (Display-name fields, which
depend on first-encounter order, are not part of the projections.) -/
theorem c2_aggregation_perm_invariant (l l' : List Entry) (h : l.Perm l') :
    (∀ a, (alookup a (calculatePlayStats l).artists).map artistTotals =
        (alookup a (calculatePlayStats l').artists).map artistTotals) ∧
    (∀ k, (alookup k (calculatePlayStats l).albums).map albumTotals =
        (alookup k (calculatePlayStats l').albums).map albumTotals) ∧
    (∀ k, (alookup k (calcState l).trackMap).map trackTotals =
        (alookup k (calcState l').trackMap).map trackTotals) ∧
    (calculatePlayStats l).totalListeningTime =
        (calculatePlayStats l').totalListeningTime ∧
    (calculatePlayStats l).processedSongs = (calculatePlayStats l').processedSongs ∧
    (calculatePlayStats l).shortPlays = (calculatePlayStats l').shortPlays := by
  refine ⟨fun a => ?_, fun k => ?_, fun k => ?_, ?_, ?_, ?_⟩
  · show (alookup a (calcState l).artistStats).map artistTotals =
      (alookup a (calcState l').artistStats).map artistTotals
    rw [alookup_artistStats, alookup_artistStats]
    exact specArtist_perm l l' h a
  · show (alookup k (calcState l).albumStats).map albumTotals =
      (alookup k (calcState l').albumStats).map albumTotals
    rw [alookup_albumStats, alookup_albumStats]
    exact specAlbum_perm l l' h k
  · rw [alookup_trackMap, alookup_trackMap]
    exact specTrack_perm l l' h k
  · show (calcState l).totalListeningTime = (calcState l').totalListeningTime
    rw [calcState_totalListeningTime, calcState_totalListeningTime]
    exact sumMs_perm _ _ (h.filter includedEntry)
  · show (calcState l).processedSongs = (calcState l').processedSongs
    rw [calcState_processedSongs, calcState_processedSongs]
    exact (h.filter includedEntry).length_eq
  · show (calcState l).shortPlays = (calcState l').shortPlays
    rw [calcState_shortPlays, calcState_shortPlays]
    exact h.countP_eq _

end StreamingAdapter

/-- Witness for C2: a concrete two-element shuffle. -/
theorem c2_aggregation_perm_invariant_witness :
    (∀ a, (alookup a (StreamingAdapter.calculatePlayStats
          [StreamingAdapter.sampleShort, StreamingAdapter.sampleLong]).artists).map
        StreamingAdapter.artistTotals =
      (alookup a (StreamingAdapter.calculatePlayStats
          [StreamingAdapter.sampleLong, StreamingAdapter.sampleShort]).artists).map
        StreamingAdapter.artistTotals) ∧
    (StreamingAdapter.calculatePlayStats
        [StreamingAdapter.sampleShort, StreamingAdapter.sampleLong]).totalListeningTime =
      (StreamingAdapter.calculatePlayStats
        [StreamingAdapter.sampleLong, StreamingAdapter.sampleShort]).totalListeningTime :=
  ⟨(StreamingAdapter.c2_aggregation_perm_invariant _ _ (by decide)).1,
   (StreamingAdapter.c2_aggregation_perm_invariant _ _ (by decide)).2.2.2.1⟩

namespace StreamingAdapter

/-- Embeds the `nullTrackNames` statistic of `processFiles`
(streaming-adapter.js line 425 / podcast-rankings.js line 1315): the number
of raw entries without a truthy track name. -/
def nullTrackNames (l : List Entry) : Nat :=
  (l.filter (fun e => !truthyStr e.master_metadata_track_name)).length

/-- C8 (amended): two included events whose *join keys*
`albumName ++ "-" ++ artistName` differ contribute to two distinct album
aggregates, and each aggregate is computed from exactly the entries with
its own join key; the counterexample theorem shows that distinct
`(albumName, artistName)` pairs can nevertheless collide on the join key
and be merged. -/
theorem c8_album_join_key_separation (l : List Entry) (e₁ e₂ : Entry)
    (h₁ : e₁ ∈ includedEntries l) (h₂ : e₂ ∈ includedEntries l)
    (hk : albumKeyOf e₁ ≠ albumKeyOf e₂) :
    ∃ s₁ s₂ : AlbumStat,
      alookup (albumKeyOf e₁) (calculatePlayStats l).albums = some s₁ ∧
      alookup (albumKeyOf e₂) (calculatePlayStats l).albums = some s₂ ∧
      s₁.playCount =
        ((includedEntries l).filter (fun x => albumKeyOf x = albumKeyOf e₁)).length ∧
      s₁.totalPlayed =
        sumMs ((includedEntries l).filter (fun x => albumKeyOf x = albumKeyOf e₁)) ∧
      s₂.playCount =
        ((includedEntries l).filter (fun x => albumKeyOf x = albumKeyOf e₂)).length ∧
      s₂.totalPlayed =
        sumMs ((includedEntries l).filter (fun x => albumKeyOf x = albumKeyOf e₂)) ∧
      e₂ ∉ (includedEntries l).filter (fun x => albumKeyOf x = albumKeyOf e₁) ∧
      e₁ ∉ (includedEntries l).filter (fun x => albumKeyOf x = albumKeyOf e₂) := by
  have key : ∀ e : Entry, e ∈ includedEntries l →
      ∃ s : AlbumStat,
        alookup (albumKeyOf e) (calculatePlayStats l).albums = some s ∧
        s.playCount =
          ((includedEntries l).filter (fun x => albumKeyOf x = albumKeyOf e)).length ∧
        s.totalPlayed =
          sumMs ((includedEntries l).filter (fun x => albumKeyOf x = albumKeyOf e)) := by
    intro e he
    have hmem : e ∈ (includedEntries l).filter (fun x => albumKeyOf x = albumKeyOf e) :=
      List.mem_filter.mpr ⟨he, by simp⟩
    have hch : alookup (albumKeyOf e) (calculatePlayStats l).albums =
        specAlbum l (albumKeyOf e) := alookup_albumStats l (albumKeyOf e)
    rcases hF : (includedEntries l).filter (fun x => albumKeyOf x = albumKeyOf e)
      with _ | ⟨e0, rest⟩
    · rw [hF] at hmem
      simp at hmem
    · rw [hch]
      simp only [specAlbum, hF]
      exact ⟨_, rfl, by simp, by simp⟩
  obtain ⟨s₁, hs₁, hpc₁, htp₁⟩ := key e₁ h₁
  obtain ⟨s₂, hs₂, hpc₂, htp₂⟩ := key e₂ h₂
  refine ⟨s₁, s₂, hs₁, hs₂, hpc₁, htp₁, hpc₂, htp₂, ?_, ?_⟩
  · intro hmem
    exact hk ((List.mem_filter.mp hmem).2 |> of_decide_eq_true).symm
  · intro hmem
    exact hk ((List.mem_filter.mp hmem).2 |> of_decide_eq_true)

/-- Included event with album "A-B" by artist "C". -/
def albumCollideA : Entry :=
  { master_metadata_track_name := some "T1",
    master_metadata_album_artist_name := some "C",
    master_metadata_album_album_name := some "A-B",
    ts := 0, ms_played := 40000 }

/-- Included event with album "A" by artist "B-C" — a different
(album, artist) pair with the same join key "A-B-C". -/
def albumCollideB : Entry :=
  { master_metadata_track_name := some "T2",
    master_metadata_album_artist_name := some "B-C",
    master_metadata_album_album_name := some "A",
    ts := 0, ms_played := 40000 }

end StreamingAdapter

/-- Counterexample for C8 as stated: the two events have different
`(albumName, artistName)` pairs, yet the run produces a single album
aggregate holding both plays. -/
theorem c8_album_composite_identity_counterexample :
    (StreamingAdapter.albumCollideA.master_metadata_album_album_name,
      StreamingAdapter.albumCollideA.master_metadata_album_artist_name) ≠
      (StreamingAdapter.albumCollideB.master_metadata_album_album_name,
        StreamingAdapter.albumCollideB.master_metadata_album_artist_name) ∧
    (StreamingAdapter.calculatePlayStats
      [StreamingAdapter.albumCollideA, StreamingAdapter.albumCollideB]).albums.length
      = 1 ∧
    ∀ p ∈ (StreamingAdapter.calculatePlayStats
      [StreamingAdapter.albumCollideA, StreamingAdapter.albumCollideB]).albums,
      p.2.playCount = 2 := by
  decide

/-- C10: an entry with no track name and `ms_played < 30000` is counted both
by the short-play tally of `calculatePlayStats` and by the null-track-name
tally of the `processFiles` stats — the two tallies overlap. -/
theorem c10_overlapping_tallies (l : List Entry) (e : Entry)
    (hname : truthyStr e.master_metadata_track_name = false)
    (hms : e.ms_played < 30000) :
    StreamingAdapter.nullTrackNames (l ++ [e]) =
      StreamingAdapter.nullTrackNames l + 1 ∧
    (StreamingAdapter.calculatePlayStats (l ++ [e])).shortPlays =
      (StreamingAdapter.calculatePlayStats l).shortPlays + 1 := by
  constructor
  · simp [StreamingAdapter.nullTrackNames, List.filter_append, hname]
  · show (StreamingAdapter.calcState (l ++ [e])).shortPlays =
      (StreamingAdapter.calcState l).shortPlays + 1
    rw [StreamingAdapter.calcState_shortPlays, StreamingAdapter.calcState_shortPlays]
    simp [List.countP_append, hms]

/-- Entry with every field absent or zero. -/
def emptyEntry : Entry :=
  { master_metadata_track_name := none }

/-- Witness for C10 at a concrete entry. -/
theorem c10_overlapping_tallies_witness :
    StreamingAdapter.nullTrackNames ([StreamingAdapter.sampleLong] ++ [emptyEntry]) =
      StreamingAdapter.nullTrackNames [StreamingAdapter.sampleLong] + 1 ∧
    (StreamingAdapter.calculatePlayStats
        ([StreamingAdapter.sampleLong] ++ [emptyEntry])).shortPlays =
      (StreamingAdapter.calculatePlayStats [StreamingAdapter.sampleLong]).shortPlays
        + 1 :=
  c10_overlapping_tallies [StreamingAdapter.sampleLong] emptyEntry (by decide) (by decide)

namespace StreamingAdapter

/-- Witness for the amended C8 at two concrete included events with
different join keys. -/
theorem c8_album_join_key_separation_witness :
    ∃ s₁ s₂ : AlbumStat,
      alookup (albumKeyOf albumCollideA)
        (calculatePlayStats [albumCollideA, sampleLong]).albums = some s₁ ∧
      alookup (albumKeyOf sampleLong)
        (calculatePlayStats [albumCollideA, sampleLong]).albums = some s₂ ∧
      s₁.playCount = ((includedEntries [albumCollideA, sampleLong]).filter
        (fun x => albumKeyOf x = albumKeyOf albumCollideA)).length ∧
      s₁.totalPlayed = sumMs ((includedEntries [albumCollideA, sampleLong]).filter
        (fun x => albumKeyOf x = albumKeyOf albumCollideA)) ∧
      s₂.playCount = ((includedEntries [albumCollideA, sampleLong]).filter
        (fun x => albumKeyOf x = albumKeyOf sampleLong)).length ∧
      s₂.totalPlayed = sumMs ((includedEntries [albumCollideA, sampleLong]).filter
        (fun x => albumKeyOf x = albumKeyOf sampleLong)) ∧
      sampleLong ∉ (includedEntries [albumCollideA, sampleLong]).filter
        (fun x => albumKeyOf x = albumKeyOf albumCollideA) ∧
      albumCollideA ∉ (includedEntries [albumCollideA, sampleLong]).filter
        (fun x => albumKeyOf x = albumKeyOf sampleLong) :=
  c8_album_join_key_separation [albumCollideA, sampleLong] albumCollideA sampleLong
    (by decide) (by decide) (by decide)

/-! ### Streak computation (claim C4) -/

/-- Milliseconds in one calendar day. -/
def dayMs : Int := 86400000

/-- Calendar day of a millisecond timestamp, modelling
`new Date(ts).toISOString().split('T')[0]` as the floor day number (`/` on
`Int` rounds toward negative infinity for the positive divisor `dayMs`,
matching the ISO conversion). -/
def dayOf (ts : Int) : Int := ts / dayMs

/-- Embeds lines 167-169 of streaming-adapter.js: the distinct calendar days
of the timestamps in ascending order.  Day strings `YYYY-MM-DD` sort
lexicographically in chronological order, which the integer sort models. -/
def uniqueSortedDays (timestamps : List Int) : List Int :=
  List.insertionSort (· ≤ ·) (timestamps.map dayOf).dedup

/-- Loop state of the streak walk (lines 176-193), carrying the previous
day, the running streak and the longest streak.  The `streakStart`/
`streakEnd` date fields of the source are not modelled; the claims concern
only the two lengths. -/
def streakGo : Int → Nat → Nat → List Int → Nat × Nat
  | _, cur, best, [] => (cur, best)
  | prev, cur, best, d :: rest =>
    if d - prev = 1 then
      streakGo d (cur + 1) (if cur + 1 > best then cur + 1 else best) rest
    else streakGo d 1 best rest

/-- Result of `calculateArtistStreaks`. -/
structure Streaks where
  longestStreak : Nat
  currentStreak : Nat
  deriving DecidableEq, Repr

/-- Embeds `calculateArtistStreaks` (streaming-adapter.js lines 165-207 and
podcast-rankings.js lines 1033-1075), with the wall clock `now` passed
explicitly.  `daysSinceLastPlay` is `Math.floor((now - lastPlay)/day)` where
`lastPlay` is midnight of the last listening day. -/
def calculateArtistStreaks (now : Int) (timestamps : List Int) : Streaks :=
  match uniqueSortedDays timestamps with
  | [] => { longestStreak := 0, currentStreak := 0 }
  | d :: rest =>
    let p := streakGo d 1 1 rest
    let lastPlay := (d :: rest).getLastD 0
    let daysSinceLastPlay := (now - lastPlay * dayMs) / dayMs
    { longestStreak := p.2,
      currentStreak := if daysSinceLastPlay ≤ 1 then p.1 else 0 }

/-- Decomposition of a day list into maximal runs of consecutive days; the
spec-side reading of "runs of consecutive unique calendar days". -/
def runBlocks : List Int → List (List Int)
  | [] => []
  | d :: rest =>
    match runBlocks rest with
    | [] => [[d]]
    | [] :: _ => [[d]]
    | (e :: b) :: bs => if e = d + 1 then (d :: e :: b) :: bs else [d] :: (e :: b) :: bs

/-- Length of the longest run. -/
def maxRunLen (bs : List (List Int)) : Nat := (bs.map List.length).foldr max 0

/-- Length of the trailing run. -/
def lastRunLen (bs : List (List Int)) : Nat := (bs.getLastD []).length

/-- The run of `c` consecutive days ending at `prev`. -/
def mkRun (prev : Int) : Nat → List Int
  | 0 => []
  | c + 1 => (prev - c) :: mkRun prev c

theorem length_mkRun (prev : Int) : ∀ c : Nat, (mkRun prev c).length = c := by
  intro c
  induction c with
  | zero => rfl
  | succ c ih => simp [mkRun, ih]

theorem mkRun_snoc (prev : Int) : ∀ c : Nat,
    mkRun (prev + 1) (c + 1) = mkRun prev c ++ [prev + 1] := by
  intro c
  induction c with
  | zero => simp [mkRun]
  | succ c ih =>
    show (prev + 1 - (c + 1)) :: mkRun (prev + 1) (c + 1) = mkRun prev (c + 1) ++ [prev + 1]
    rw [ih]
    show (prev + 1 - (c + 1)) :: (mkRun prev c ++ [prev + 1]) =
      ((prev - c) :: mkRun prev c) ++ [prev + 1]
    have hcast : prev + 1 - ((c : Int) + 1) = prev - c := by ring
    rw [hcast]
    rfl

theorem runBlocks_cons (x : Int) (xs : List Int) :
    ∃ t bs, runBlocks (x :: xs) = (x :: t) :: bs := by
  show ∃ t bs,
    (match runBlocks xs with
      | [] => [[x]]
      | [] :: _ => [[x]]
      | (e :: b) :: bs => if e = x + 1 then (x :: e :: b) :: bs else [x] :: (e :: b) :: bs)
    = (x :: t) :: bs
  rcases hr : runBlocks xs with _ | ⟨b0, bs0⟩
  · exact ⟨[], [], rfl⟩
  · rcases b0 with _ | ⟨e, b⟩
    · exact ⟨[], [], rfl⟩
    · by_cases he : e = x + 1
      · exact ⟨e :: b, bs0, by simp [he]⟩
      · exact ⟨[], (e :: b) :: bs0, by simp [he]⟩

end StreamingAdapter

namespace StreamingAdapter

theorem runBlocks_cons_eq (d : Int) (rest : List Int) :
    runBlocks (d :: rest) =
      match runBlocks rest with
      | [] => [[d]]
      | [] :: _ => [[d]]
      | (e :: b) :: bs =>
        if e = d + 1 then (d :: e :: b) :: bs else [d] :: (e :: b) :: bs := rfl

theorem mkRun_succ_eq (prev : Int) (c : Nat) :
    mkRun prev (c + 1) = (prev - c) :: mkRun prev c := rfl

theorem runBlocks_single_run (prev : Int) : ∀ c : Nat,
    runBlocks (mkRun prev (c + 1)) = [mkRun prev (c + 1)] := by
  intro c
  induction c with
  | zero =>
    rw [show mkRun prev 1 = [prev] from by simp [mkRun]]
    rfl
  | succ c ih =>
    rw [show mkRun prev (c + 1 + 1) = (prev - (c + 1 : Nat)) :: mkRun prev (c + 1)
      from rfl]
    rw [runBlocks_cons_eq, ih, mkRun_succ_eq]
    have hs : (prev - (c : Int)) = prev - ((c + 1 : Nat) : Int) + 1 := by
      push_cast
      ring
    rw [hs]
    simp

theorem runBlocks_run_merge (prev : Int) (x : Int) (xs t : List Int)
    (bs : List (List Int)) (hx : x = prev + 1)
    (hL : runBlocks (x :: xs) = (x :: t) :: bs) : ∀ c : Nat,
    runBlocks (mkRun prev (c + 1) ++ x :: xs) =
      (mkRun prev (c + 1) ++ x :: t) :: bs := by
  intro c
  induction c with
  | zero =>
    rw [show mkRun prev 1 = [prev] from by simp [mkRun]]
    show runBlocks (prev :: x :: xs) = _
    rw [runBlocks_cons_eq, hL, hx]
    simp
  | succ c ih =>
    rw [show mkRun prev (c + 1 + 1) ++ x :: xs =
      (prev - (c + 1 : Nat)) :: (mkRun prev (c + 1) ++ x :: xs) from rfl]
    rw [runBlocks_cons_eq, ih, mkRun_succ_eq]
    have hs : (prev - (c : Int)) = prev - ((c + 1 : Nat) : Int) + 1 := by
      push_cast
      ring
    rw [show ((prev - (c : Int)) :: mkRun prev c ++ x :: t) :: bs =
      ((prev - (c : Int)) :: (mkRun prev c ++ x :: t)) :: bs from rfl]
    rw [hs]
    simp [mkRun_succ_eq, hs]

theorem runBlocks_run_split (prev : Int) (x : Int) (xs : List Int)
    (hx : ¬x = prev + 1) : ∀ c : Nat,
    runBlocks (mkRun prev (c + 1) ++ x :: xs) =
      mkRun prev (c + 1) :: runBlocks (x :: xs) := by
  intro c
  induction c with
  | zero =>
    rw [show mkRun prev 1 = [prev] from by simp [mkRun]]
    show runBlocks (prev :: x :: xs) = _
    obtain ⟨t, bs, hL⟩ := runBlocks_cons x xs
    rw [runBlocks_cons_eq, hL]
    simp [hx]
  | succ c ih =>
    rw [show mkRun prev (c + 1 + 1) ++ x :: xs =
      (prev - (c + 1 : Nat)) :: (mkRun prev (c + 1) ++ x :: xs) from rfl]
    rw [runBlocks_cons_eq, ih, mkRun_succ_eq]
    have hs : (prev - (c : Int)) = prev - ((c + 1 : Nat) : Int) + 1 := by
      push_cast
      ring
    rw [show ((prev - (c : Int)) :: mkRun prev c) :: runBlocks (x :: xs) =
      ((prev - (c : Int)) :: mkRun prev c) :: runBlocks (x :: xs) from rfl]
    rw [hs]
    simp [mkRun_succ_eq, hs]

end StreamingAdapter

namespace StreamingAdapter

theorem maxRunLen_cons (b : List Int) (bs : List (List Int)) :
    maxRunLen (b :: bs) = max b.length (maxRunLen bs) := rfl

theorem lastRunLen_cons (b : List Int) (bs : List (List Int)) (h : bs ≠ []) :
    lastRunLen (b :: bs) = lastRunLen bs := by
  cases bs with
  | nil => exact absurd rfl h
  | cons b2 bs2 => simp [lastRunLen, List.getLastD_cons]

theorem le_maxRunLen_mkRun (prev : Int) (c : Nat) (rest : List Int) :
    c + 1 ≤ maxRunLen (runBlocks (mkRun prev (c + 1) ++ rest)) := by
  cases rest with
  | nil =>
    rw [List.append_nil, runBlocks_single_run]
    simp [maxRunLen, length_mkRun]
  | cons x xs =>
    by_cases hx : x = prev + 1
    · obtain ⟨t, bs, hL⟩ := runBlocks_cons x xs
      rw [runBlocks_run_merge prev x xs t bs hx hL c, maxRunLen_cons]
      refine le_trans ?_ (le_max_left _ _)
      simp [length_mkRun]
    · rw [runBlocks_run_split prev x xs hx c, maxRunLen_cons]
      refine le_trans ?_ (le_max_left _ _)
      simp [length_mkRun]

theorem streakGo_spec : ∀ (rest : List Int) (prev : Int) (cur best : Nat),
    1 ≤ cur → cur ≤ best →
    streakGo prev cur best rest =
      (lastRunLen (runBlocks (mkRun prev cur ++ rest)),
        max best (maxRunLen (runBlocks (mkRun prev cur ++ rest)))) := by
  intro rest
  induction rest with
  | nil =>
    intro prev cur best h1 h2
    obtain ⟨c, rfl⟩ : ∃ c, cur = c + 1 := ⟨cur - 1, by omega⟩
    rw [List.append_nil, runBlocks_single_run]
    simp only [streakGo, lastRunLen, maxRunLen, List.getLastD_cons, List.map_cons,
      List.map_nil, List.foldr_cons, List.foldr_nil, List.getLastD_nil]
    rw [length_mkRun]
    rw [Nat.max_zero, max_eq_left h2]
  | cons d rest' ih =>
    intro prev cur best h1 h2
    obtain ⟨c, rfl⟩ : ∃ c, cur = c + 1 := ⟨cur - 1, by omega⟩
    simp only [streakGo]
    by_cases hd : d - prev = 1
    · rw [if_pos hd]
      have hx : d = prev + 1 := by omega
      have hmax : (if c + 1 + 1 > best then c + 1 + 1 else best) = max best (c + 1 + 1) := by
        rw [Nat.max_def]
        by_cases hb : best ≤ c + 1 + 1
        · rw [if_pos hb]
          by_cases hb2 : c + 1 + 1 > best
          · rw [if_pos hb2]
          · rw [if_neg hb2]
            omega
        · rw [if_neg hb, if_neg (by omega)]
      rw [hmax, ih d (c + 1 + 1) (max best (c + 1 + 1)) (by omega) (le_max_right _ _)]
      have hlist : mkRun d (c + 1 + 1) ++ rest' = mkRun prev (c + 1) ++ d :: rest' := by
        rw [hx, mkRun_snoc prev (c + 1)]
        simp
      rw [hlist]
      have hM := le_maxRunLen_mkRun d (c + 1) rest'
      rw [hlist] at hM
      simp only [Prod.mk.injEq, true_and]
      rw [max_assoc, max_eq_right hM]
    · rw [if_neg hd]
      have hx : ¬d = prev + 1 := by omega
      rw [ih d 1 best (le_refl 1) (le_trans h1 h2)]
      have h1d : mkRun d 1 ++ rest' = d :: rest' := by simp [mkRun]
      rw [h1d]
      obtain ⟨t, bs, hL⟩ := runBlocks_cons d rest'
      rw [runBlocks_run_split prev d rest' hx c]
      rw [lastRunLen_cons _ _ (by rw [hL]; simp)]
      rw [maxRunLen_cons, length_mkRun]
      simp only [Prod.mk.injEq, true_and]
      rw [← max_assoc, max_eq_left h2]

end StreamingAdapter

namespace StreamingAdapter

theorem uniqueSortedDays_ne_nil (timestamps : List Int) (h : timestamps ≠ []) :
    uniqueSortedDays timestamps ≠ [] := by
  intro hnil
  have hperm := List.perm_insertionSort (fun a b : Int => a ≤ b)
    (timestamps.map dayOf).dedup
  rw [show uniqueSortedDays timestamps =
      List.insertionSort (fun a b : Int => a ≤ b) (timestamps.map dayOf).dedup
    from rfl] at hnil
  rw [hnil] at hperm
  have hd : (timestamps.map dayOf).dedup = [] := hperm.nil_eq.symm
  rw [List.dedup_eq_nil] at hd
  exact h (List.map_eq_nil_iff.mp hd)

/-- C4: on a non-empty timestamp list, `calculateArtistStreaks` reports as
`longestStreak` the length of the longest run of consecutive unique calendar
days, and as `currentStreak` the trailing run's length — reported as zero
when the most recent listening day lies more than one day before the
evaluation time `now`. -/
theorem c4_streaks_runs (now : Int) (timestamps : List Int) (h : timestamps ≠ []) :
    (calculateArtistStreaks now timestamps).longestStreak =
      maxRunLen (runBlocks (uniqueSortedDays timestamps)) ∧
    (calculateArtistStreaks now timestamps).currentStreak =
      (if dayOf now - (uniqueSortedDays timestamps).getLastD 0 ≤ 1
        then lastRunLen (runBlocks (uniqueSortedDays timestamps)) else 0) := by
  have hne := uniqueSortedDays_ne_nil timestamps h
  rcases hd : uniqueSortedDays timestamps with _ | ⟨d, rest⟩
  · exact absurd hd hne
  · have hpair := streakGo_spec rest d 1 1 (le_refl 1) (le_refl 1)
    have h1d : mkRun d 1 ++ rest = d :: rest := by simp [mkRun]
    rw [h1d] at hpair
    obtain ⟨t, bs, hL⟩ := runBlocks_cons d rest
    have hmax1 : max 1 (maxRunLen (runBlocks (d :: rest))) =
        maxRunLen (runBlocks (d :: rest)) := by
      rw [hL, maxRunLen_cons]
      apply max_eq_right
      refine le_trans ?_ (le_max_left _ _)
      simp
    have hcond : ∀ L : Int, (now - L * dayMs) / dayMs = dayOf now - L := by
      intro L
      have hd0 : (dayMs : Int) ≠ 0 := by norm_num [dayMs]
      have hrw : now - L * dayMs = now + (-L) * dayMs := by ring
      rw [hrw, Int.add_mul_ediv_right _ _ hd0]
      show now / dayMs + -L = dayOf now - L
      rw [dayOf]
      ring
    constructor
    · simp only [calculateArtistStreaks, hd, hpair, hmax1]
    · simp only [calculateArtistStreaks, hd, hpair, hcond]

end StreamingAdapter

/-- Witness for C4: days `[D, D+1, D+5]` give a longest streak of 2, days
`[D, D+1, D+2]` give 3. -/
theorem c4_streaks_runs_witness :
    ((StreamingAdapter.calculateArtistStreaks 432000000
        [0, 86400000, 432000000]).longestStreak =
      StreamingAdapter.maxRunLen (StreamingAdapter.runBlocks
        (StreamingAdapter.uniqueSortedDays [0, 86400000, 432000000])) ∧
    (StreamingAdapter.calculateArtistStreaks 432000000
        [0, 86400000, 432000000]).currentStreak =
      (if StreamingAdapter.dayOf 432000000 -
          (StreamingAdapter.uniqueSortedDays [0, 86400000, 432000000]).getLastD 0 ≤ 1
        then StreamingAdapter.lastRunLen (StreamingAdapter.runBlocks
          (StreamingAdapter.uniqueSortedDays [0, 86400000, 432000000]))
        else 0)) ∧
    (StreamingAdapter.calculateArtistStreaks 432000000
      [0, 86400000, 432000000]).longestStreak = 2 ∧
    (StreamingAdapter.calculateArtistStreaks 172800000
      [0, 86400000, 172800000]).longestStreak = 3 :=
  ⟨StreamingAdapter.c4_streaks_runs 432000000 [0, 86400000, 432000000] (by decide),
   by decide, by decide⟩

namespace StreamingAdapter

/-! ### Brief obsessions (claim C5) -/

/-- Seven days in milliseconds; `weekStart.setDate(weekStart.getDate() - 7)`
subtracts exactly seven calendar days in the modelled (DST-free) clock. -/
def weekMs : Int := 7 * 86400000

/-- Number of plays in the trailing 7-day window ending at `weekEnd`
(line 226): both window ends inclusive. -/
def playsInWindow (timestamps : List Int) (weekEnd : Int) : Nat :=
  (timestamps.filter (fun t => weekEnd - weekMs ≤ t ∧ t ≤ weekEnd)).length

/-- The loop of lines 218-232: the maximal window play count together with
the start of the first window attaining it. -/
def bestWindow (sorted : List Int) : Nat × Option Int :=
  sorted.foldl
    (fun acc t =>
      if playsInWindow sorted t > acc.1 then (playsInWindow sorted t, some (t - weekMs))
      else acc)
    (0, none)

/-- One brief-obsession entry: `{...song, intensePeriod}` of lines 235-241. -/
structure ObsessionEntry where
  song : TrackStat
  weekStart : Option Int
  playsInWeek : Nat
  deriving DecidableEq, Repr

/-- Per-song body of the `songs.forEach` of `calculateBriefObsessions`
(lines 212-245); `none` when the song is not pushed. -/
def findObsession (songPlayHistory : List (String × List Int)) (song : TrackStat) :
    Option ObsessionEntry :=
  if song.playCount ≤ 50 then
    if ((alookup song.key songPlayHistory).getD []).isEmpty = false then
      if 5 ≤ (bestWindow (List.insertionSort (fun a b : Int => a ≤ b)
          ((alookup song.key songPlayHistory).getD []))).1 then
        some { song := song
               weekStart := (bestWindow (List.insertionSort (fun a b : Int => a ≤ b)
                 ((alookup song.key songPlayHistory).getD []))).2
               playsInWeek := (bestWindow (List.insertionSort (fun a b : Int => a ≤ b)
                 ((alookup song.key songPlayHistory).getD []))).1 }
      else none
    else none
  else none

/-- Order on optional window starts (`none` never occurs on pushed entries). -/
def optIntLE : Option Int → Option Int → Prop
  | none, _ => True
  | some _, none => False
  | some a, some b => a ≤ b

instance : ∀ x y : Option Int, Decidable (optIntLE x y) := fun x y =>
  match x, y with
  | none, _ => isTrue trivial
  | some _, none => isFalse fun h => h
  | some a, some b => inferInstanceAs (Decidable (a ≤ b))

/-- Comparator of `_.orderBy(..., ['intensePeriod.playsInWeek',
'intensePeriod.weekStart'], ['desc', 'asc'])` (lines 247-251). -/
def obsessionLE (a b : ObsessionEntry) : Prop :=
  b.playsInWeek < a.playsInWeek ∨
    (a.playsInWeek = b.playsInWeek ∧ optIntLE a.weekStart b.weekStart)

instance : DecidableRel obsessionLE := fun a b =>
  inferInstanceAs (Decidable (_ ∨ _))

theorem optIntLE_total (x y : Option Int) : optIntLE x y ∨ optIntLE y x := by
  cases x <;> cases y <;> simp [optIntLE]
  exact le_total _ _

theorem optIntLE_trans {x y z : Option Int}
    (h1 : optIntLE x y) (h2 : optIntLE y z) : optIntLE x z := by
  cases x <;> cases y <;> cases z <;> simp [optIntLE] at * <;> omega

instance : IsTotal ObsessionEntry obsessionLE :=
  ⟨fun a b => by
    unfold obsessionLE
    rcases Nat.lt_trichotomy a.playsInWeek b.playsInWeek with h | h | h
    · right
      left
      exact h
    · rcases optIntLE_total a.weekStart b.weekStart with hw | hw
      · left
        right
        exact ⟨h, hw⟩
      · right
        right
        exact ⟨h.symm, hw⟩
    · left
      left
      exact h⟩

instance : IsTrans ObsessionEntry obsessionLE :=
  ⟨fun a b c hab hbc => by
    unfold obsessionLE at *
    rcases hab with h1 | ⟨h1, hw1⟩ <;> rcases hbc with h2 | ⟨h2, hw2⟩
    · left
      omega
    · left
      omega
    · left
      omega
    · right
      exact ⟨h1.trans h2, optIntLE_trans hw1 hw2⟩⟩

/-- Embeds `calculateBriefObsessions` (streaming-adapter.js lines 209-252 and
podcast-rankings.js lines 1077-1120): collect qualifying songs, order by
window plays descending then window start ascending, cap at 100. -/
def calculateBriefObsessions (songs : List TrackStat)
    (songPlayHistory : List (String × List Int)) : List ObsessionEntry :=
  (List.insertionSort obsessionLE
    (songs.filterMap (findObsession songPlayHistory))).take 100

/-- Spec-side qualification: `playCount ≤ 50`, non-empty history, and at
least 5 plays in some trailing 7-day window ending at one of the song's own
timestamps. -/
def qualifiesObsession (songPlayHistory : List (String × List Int))
    (song : TrackStat) : Prop :=
  song.playCount ≤ 50 ∧ (alookup song.key songPlayHistory).getD [] ≠ [] ∧
    ∃ t ∈ (alookup song.key songPlayHistory).getD [],
      5 ≤ playsInWindow ((alookup song.key songPlayHistory).getD []) t

end StreamingAdapter

namespace StreamingAdapter

theorem bestWindow_fst (sorted : List Int) :
    ∀ (l : List Int) (acc : Nat × Option Int),
      (l.foldl
        (fun acc t =>
          if playsInWindow sorted t > acc.1 then
            (playsInWindow sorted t, some (t - weekMs))
          else acc)
        acc).1 =
      l.foldl (fun m t => max m (playsInWindow sorted t)) acc.1 := by
  intro l
  induction l with
  | nil => intro acc; rfl
  | cons t rest ih =>
    intro acc
    rw [List.foldl_cons, List.foldl_cons, ih]
    by_cases hgt : playsInWindow sorted t > acc.1
    · rw [if_pos hgt]
      have : max acc.1 (playsInWindow sorted t) = playsInWindow sorted t := by omega
      rw [this]
    · rw [if_neg hgt]
      have : max acc.1 (playsInWindow sorted t) = acc.1 := by omega
      rw [this]

theorem foldl_max_facts (f : Int → Nat) :
    ∀ (l : List Int) (m0 : Nat),
      m0 ≤ l.foldl (fun m t => max m (f t)) m0 ∧
      (∀ t ∈ l, f t ≤ l.foldl (fun m t => max m (f t)) m0) ∧
      (l.foldl (fun m t => max m (f t)) m0 = m0 ∨
        ∃ t ∈ l, f t = l.foldl (fun m t => max m (f t)) m0) := by
  intro l
  induction l with
  | nil => intro m0; exact ⟨le_refl _, by simp, Or.inl rfl⟩
  | cons t rest ih =>
    intro m0
    obtain ⟨ih1, ih2, ih3⟩ := ih (max m0 (f t))
    rw [List.foldl_cons]
    refine ⟨le_trans (le_max_left _ _) ih1, ?_, ?_⟩
    · intro u hu
      rcases List.mem_cons.mp hu with h | h
      · subst h
        exact le_trans (le_max_right _ _) ih1
      · exact ih2 u h
    · rcases ih3 with h | ⟨u, hu, hfu⟩
      · by_cases hm : f t ≤ m0
        · left
          rw [h]
          omega
        · right
          exact ⟨t, by simp, by rw [h]; omega⟩
      · right
        exact ⟨u, by simp [hu], hfu⟩

theorem playsInWindow_perm (xs ys : List Int) (h : xs.Perm ys) (u : Int) :
    playsInWindow xs u = playsInWindow ys u :=
  (h.filter _).length_eq

/-- Full behavioural characterization of `findObsession`. -/
theorem findObsession_spec (hist : List (String × List Int)) (s : TrackStat) :
    (qualifiesObsession hist s → ∃ e, findObsession hist s = some e) ∧
    (∀ e, findObsession hist s = some e →
      e.song = s ∧ qualifiesObsession hist s ∧ 5 ≤ e.playsInWeek ∧
      (∃ t ∈ (alookup s.key hist).getD [],
        playsInWindow ((alookup s.key hist).getD []) t = e.playsInWeek) ∧
      (∀ t ∈ (alookup s.key hist).getD [],
        playsInWindow ((alookup s.key hist).getD []) t ≤ e.playsInWeek)) := by
  set ts := (alookup s.key hist).getD [] with hts
  set sorted := List.insertionSort (fun a b : Int => a ≤ b) ts with hsorted
  have hperm : sorted.Perm ts := List.perm_insertionSort _ ts
  have hpw : ∀ u : Int, playsInWindow sorted u = playsInWindow ts u :=
    fun u => playsInWindow_perm _ _ hperm u
  have hM : (bestWindow sorted).1 =
      sorted.foldl (fun m t => max m (playsInWindow sorted t)) 0 :=
    bestWindow_fst sorted sorted (0, none)
  obtain ⟨hge, hub, hach⟩ := foldl_max_facts (playsInWindow sorted) sorted 0
  constructor
  · rintro ⟨hpc, hne, t, ht, h5⟩
    have hts' : ts.isEmpty = false := by
      cases hts2 : ts
      · exact absurd hts2 hne
      · rfl
    have htm : t ∈ sorted := hperm.mem_iff.mpr ht
    have h5' : 5 ≤ playsInWindow sorted t := by rw [hpw]; exact h5
    have h5M : 5 ≤ (bestWindow sorted).1 := by
      rw [hM]
      exact le_trans h5' (hub t htm)
    refine ⟨{ song := s, weekStart := (bestWindow sorted).2, playsInWeek := (bestWindow sorted).1 }, ?_⟩
    unfold findObsession
    rw [← hts, ← hsorted, if_pos hpc, if_pos ?_, if_pos h5M]
    rw [hts']
  · intro e he
    unfold findObsession at he
    rw [← hts, ← hsorted] at he
    by_cases hpc : s.playCount ≤ 50
    · rw [if_pos hpc] at he
      by_cases hne : ts.isEmpty = false
      · rw [if_pos hne] at he
        by_cases h5 : 5 ≤ (bestWindow sorted).1
        · rw [if_pos h5] at he
          have he' : e = { song := s, weekStart := (bestWindow sorted).2, playsInWeek := (bestWindow sorted).1 } := by
            have := Option.some.inj he
            exact this.symm
          subst he'
          have hM5 : 5 ≤ (bestWindow sorted).1 := h5
          rw [hM] at hM5
          have hach' : ∃ t ∈ sorted, playsInWindow sorted t =
              sorted.foldl (fun m t => max m (playsInWindow sorted t)) 0 := by
            rcases hach with h0 | h
            · omega
            · exact h
          obtain ⟨t, htm, hft⟩ := hach'
          have htst : t ∈ ts := hperm.mem_iff.mp htm
          refine ⟨rfl, ⟨hpc, ?_, t, htst, ?_⟩, h5, ⟨t, htst, ?_⟩, ?_⟩
          · intro hnil
            rw [← hts] at hnil
            rw [hnil] at hne
            simp at hne
          · rw [← hpw, hft, ← hM]
            exact h5
          · show playsInWindow ts t = (bestWindow sorted).1
            rw [← hpw, hft, ← hM]
          · intro u hu
            show playsInWindow ts u ≤ (bestWindow sorted).1
            rw [← hpw, hM]
            exact hub u (hperm.mem_iff.mpr hu)
        · rw [if_neg h5] at he
          exact absurd he (by simp)
      · rw [if_neg hne] at he
        exact absurd he (by simp)
    · rw [if_neg hpc] at he
      exact absurd he (by simp)

end StreamingAdapter

namespace StreamingAdapter

/-- C5: a track appears among the collected brief obsessions exactly when its
`playCount` is at most 50, its history is non-empty, and some trailing 7-day
window ending at one of its timestamps holds at least 5 plays; every entry
of the capped result carries the maximal window count as `playsInWeek`, the
result is ordered by `playsInWeek` descending then window start ascending,
and holds at most 100 entries. -/
theorem c5_brief_obsessions (songs : List TrackStat)
    (hist : List (String × List Int)) :
    (∀ e ∈ calculateBriefObsessions songs hist,
      e.song ∈ songs ∧ qualifiesObsession hist e.song ∧ 5 ≤ e.playsInWeek ∧
      (∃ t ∈ (alookup e.song.key hist).getD [],
        playsInWindow ((alookup e.song.key hist).getD []) t = e.playsInWeek) ∧
      (∀ t ∈ (alookup e.song.key hist).getD [],
        playsInWindow ((alookup e.song.key hist).getD []) t ≤ e.playsInWeek)) ∧
    (∀ s ∈ songs, qualifiesObsession hist s →
      ∃ e ∈ List.insertionSort obsessionLE (songs.filterMap (findObsession hist)),
        e.song = s) ∧
    calculateBriefObsessions songs hist =
      (List.insertionSort obsessionLE
        (songs.filterMap (findObsession hist))).take 100 ∧
    List.Sorted obsessionLE (calculateBriefObsessions songs hist) ∧
    (calculateBriefObsessions songs hist).length ≤ 100 := by
  refine ⟨?_, ?_, rfl, ?_, ?_⟩
  · intro e he
    have he1 : e ∈ List.insertionSort obsessionLE
        (songs.filterMap (findObsession hist)) :=
      List.mem_of_mem_take he
    have he2 : e ∈ songs.filterMap (findObsession hist) :=
      (List.perm_insertionSort obsessionLE _).mem_iff.mp he1
    obtain ⟨s, hs, hfs⟩ := List.mem_filterMap.mp he2
    obtain ⟨hsong, hqual, h5, hex, hub⟩ := (findObsession_spec hist s).2 e hfs
    rw [hsong]
    exact ⟨hs, hqual, h5, hex, hub⟩
  · intro s hs hqual
    obtain ⟨e, hfe⟩ := (findObsession_spec hist s).1 hqual
    have hesong := ((findObsession_spec hist s).2 e hfe).1
    refine ⟨e, ?_, hesong⟩
    exact (List.perm_insertionSort obsessionLE _).mem_iff.mpr
      (List.mem_filterMap.mpr ⟨s, hs, hfe⟩)
  · exact List.Pairwise.sublist (List.take_sublist _ _)
      (List.sorted_insertionSort obsessionLE _)
  · exact le_trans (List.length_take_le _ _) (le_refl _)

/-- Sample low-play-count track with five plays inside one 7-day window. -/
def obsSong : TrackStat :=
  { key := "S-A", trackName := "S", artist := "A", albumName := "Unknown Album",
    totalPlayed := 1000000, playCount := 5 }

/-- History for `obsSong`: five plays within a few seconds. -/
def obsHist : List (String × List Int) :=
  [("S-A", [0, 1000, 2000, 3000, 4000])]

end StreamingAdapter

/-- Witness for C5: the sample track qualifies with `playsInWeek = 5`, the
result is sorted and capped. -/
theorem c5_brief_obsessions_witness :
    List.Sorted StreamingAdapter.obsessionLE
      (StreamingAdapter.calculateBriefObsessions [StreamingAdapter.obsSong]
        StreamingAdapter.obsHist) ∧
    (StreamingAdapter.calculateBriefObsessions [StreamingAdapter.obsSong]
      StreamingAdapter.obsHist).length ≤ 100 ∧
    (∃ e ∈ StreamingAdapter.calculateBriefObsessions [StreamingAdapter.obsSong]
        StreamingAdapter.obsHist,
      e.song = StreamingAdapter.obsSong ∧ e.playsInWeek = 5) :=
  ⟨(StreamingAdapter.c5_brief_obsessions [StreamingAdapter.obsSong]
      StreamingAdapter.obsHist).2.2.2.1,
   (StreamingAdapter.c5_brief_obsessions [StreamingAdapter.obsSong]
      StreamingAdapter.obsHist).2.2.2.2,
   by decide⟩

/-! ## Apple-Music CSV row transform (claim C7) and file adapters -/

/-- Index of the first occurrence of `pat` in a character list, as
`String.prototype.indexOf`; `none` when absent (`indexOf` result `-1`). -/
def firstIdxOf (pat : List Char) : List Char → Option Nat
  | [] => if pat.isEmpty then some 0 else none
  | c :: rest =>
    if List.isPrefixOf pat (c :: rest) then some 0
    else
      match firstIdxOf pat rest with
      | some i => some (i + 1)
      | none => none

/-- Split on every non-overlapping occurrence of a non-empty separator,
left to right — the behaviour of `String.prototype.split`. -/
def splitOnSeq (sep : List Char) : List Char → List (List Char)
  | [] => [[]]
  | c :: rest =>
    if h : sep ≠ [] ∧ List.isPrefixOf sep (c :: rest) = true then
      [] :: splitOnSeq sep ((c :: rest).drop sep.length)
    else
      match splitOnSeq sep rest with
      | [] => [[c]]
      | p :: ps => (c :: p) :: ps
termination_by l => l.length
decreasing_by
  · rcases h with ⟨hne, _⟩
    have : 1 ≤ sep.length := by
      cases sep
      · exact absurd rfl hne
      · simp
    simp [List.length_drop]
    omega
  · simp

/-- Join chunks with a separator, as `Array.prototype.join`. -/
def joinSep (sep : List Char) : List (List Char) → List Char
  | [] => []
  | [p] => p
  | p :: ps => p ++ sep ++ joinSep sep ps

/-- Truthiness of an optional numeric CSV cell: absent, `NaN` and `0` are
falsy. -/
def truthyNum : Option Int → Bool
  | none => false
  | some n => n ≠ 0

/-- The JS `Date` range: `new Date(ms).toISOString()` throws outside
`±8.64e15` ms, triggering the wall-clock fallback. -/
def validDateMs (d : Int) : Bool :=
  decide (-8640000000000000 ≤ d ∧ d ≤ 8640000000000000)

namespace PodcastRankings

/-- Raw CSV row of the Apple Music adapter, with JS-truthy optional cells. -/
structure AppleRow where
  trackName : Option String := none
  lastPlayedDate : Option Int := none
  isUserInitiated : Bool := false
  deriving DecidableEq, Repr

/-- Embeds the per-row map of the Apple Music branch of `processFiles`
(podcast-rankings.js lines 1196-1248): split `"Artist - Track"` on the first
`" - "`, otherwise split `"Track, Artist"` on `", "` with the last segment
as artist; estimate `ms_played` from `Is User Initiated`; fall back to the
wall clock when the epoch-millisecond timestamp is unusable.  (The
`includes(' - ')` test of the source is the `isSome` of the first-occurrence
index used here; the featuring-artist block of lines 1218-1227 has no
effect and is not modelled.) -/
def transformAppleRow (now : Int) (row : AppleRow) : Entry :=
  let tn := (row.trackName.getD "").data
  let split :=
    match firstIdxOf " - ".data tn with
    | some dashIndex =>
      (jsTrimL (tn.take dashIndex), jsTrimL (tn.drop (dashIndex + 3)))
    | none =>
      if (firstIdxOf ", ".data tn).isSome then
        if 2 ≤ (splitOnSeq ", ".data tn).length then
          (jsTrimL ((splitOnSeq ", ".data tn).getLastD []),
            jsTrimL (joinSep ", ".data (splitOnSeq ", ".data tn).dropLast))
        else ("Unknown Artist".data, tn)
      else ("Unknown Artist".data, tn)
  let timestamp :=
    match row.lastPlayedDate with
    | some d => if validDateMs d then d else now
    | none => now
  { master_metadata_track_name := some (String.mk split.2)
    master_metadata_album_artist_name := some (String.mk split.1)
    master_metadata_album_album_name := some "Unknown Album"
    ts := timestamp
    ms_played := if row.isUserInitiated then 240000 else 30000
    source := "apple_music" }

end PodcastRankings

theorem isPrefixOf_self_append (l t : List Char) :
    List.isPrefixOf l (l ++ t) = true := by
  induction l with
  | nil => simp [List.isPrefixOf]
  | cons c ls ih => simp [List.isPrefixOf, ih]

theorem firstIdxOf_decomp (sep : List Char) :
    ∀ (pre : List Char) (l post : List Char),
      l = pre ++ sep ++ post →
      (∀ i < pre.length, List.isPrefixOf sep (l.drop i) = false) →
      firstIdxOf sep l = some pre.length := by
  intro pre
  induction pre with
  | nil =>
    intro l post hl _
    subst hl
    simp only [List.nil_append]
    cases hsep : sep with
    | nil => cases post <;> simp [firstIdxOf]
    | cons s ss =>
      subst hsep
      have hp : List.isPrefixOf (s :: ss) ((s :: ss) ++ post) = true :=
        isPrefixOf_self_append _ _
      rw [List.cons_append] at hp ⊢
      simp [firstIdxOf, hp]
  | cons c pre' ih =>
    intro l post hl hno
    subst hl
    have h0 := hno 0 (by simp)
    rw [List.drop_zero] at h0
    have h0' : List.isPrefixOf sep (c :: (pre' ++ sep ++ post)) = false := h0
    have hrec := ih (pre' ++ sep ++ post) post rfl ?_
    · rw [show (c :: pre') ++ sep ++ post = c :: (pre' ++ sep ++ post) from rfl]
      rw [show firstIdxOf sep (c :: (pre' ++ sep ++ post)) =
        if List.isPrefixOf sep (c :: (pre' ++ sep ++ post)) then some 0
        else
          match firstIdxOf sep (pre' ++ sep ++ post) with
          | some i => some (i + 1)
          | none => none from rfl]
      rw [h0', hrec]
      simp
    · intro i hi
      have := hno (i + 1) (by simp; omega)
      simpa using this

theorem splitOnSeq_eq_single (sep : List Char) :
    ∀ l : List Char, firstIdxOf sep l = none → splitOnSeq sep l = [l] := by
  intro l
  induction l with
  | nil =>
    intro _
    simp [splitOnSeq]
  | cons c rest ih =>
    intro h
    have hnp : List.isPrefixOf sep (c :: rest) = false := by
      cases hp : List.isPrefixOf sep (c :: rest)
      · rfl
      · simp [firstIdxOf, hp] at h
    have hrest : firstIdxOf sep rest = none := by
      simp only [firstIdxOf, hnp, Bool.false_eq_true, if_false] at h
      cases hr : firstIdxOf sep rest
      · rfl
      · rw [hr] at h
        simp at h
    rw [splitOnSeq]
    rw [dif_neg (by simp [hnp]), ih hrest]

/-! ## File batch processing (claim C3) -/

/-- Parsed content of one uploaded file: a successfully parsed JSON array of
listening records, a JSON document that fails to parse, or the rows of a
CSV document as produced by the `Papa.parse` header mode. -/
inductive FileContent where
  | jsonArray : List Entry → FileContent
  | malformedJson : FileContent
  | csvRows : List PodcastRankings.AppleRow → FileContent
  deriving DecidableEq

/-- One uploaded file: its name (used for adapter dispatch) and content. -/
structure UploadFile where
  name : String
  content : FileContent
  deriving DecidableEq

/-- Model of `s.endsWith(suffix)`. -/
def jsEndsWith (sfx s : String) : Bool := List.isSuffixOf sfx.data s.data

instance {E A : Type} [DecidableEq E] [DecidableEq A] : DecidableEq (Except E A) := fun x y =>
  match x, y with
  | Except.error a, Except.error b =>
    if h : a = b then Decidable.isTrue (congrArg Except.error h)
    else Decidable.isFalse (fun hc => h (by injection hc))
  | Except.error _, Except.ok _ => Decidable.isFalse (fun hc => Except.noConfusion hc)
  | Except.ok _, Except.error _ => Decidable.isFalse (fun hc => Except.noConfusion hc)
  | Except.ok a, Except.ok b =>
    if h : a = b then Decidable.isTrue (congrArg Except.ok h)
    else Decidable.isFalse (fun hc => h (by injection hc))

/-- The `stats` block of the `processFiles` result object
(streaming-adapter.js lines 421-429 / podcast-rankings.js lines 1311-1319). -/
structure ProcessStats where
  totalFiles : Nat
  totalEntries : Nat
  processedSongs : Nat
  nullTrackNames : Nat
  skippedEntries : Nat
  shortPlays : Nat
  totalListeningTime : Int
  deriving DecidableEq, Repr

/-- Builds the `stats` block from the concatenated adapter output.  (Both
variants compute `processedSongs`, `shortPlays` and `totalListeningTime`
through their `calculatePlayStats`, whose skip logic is identical; the
streaming-adapter embedding is used for these scalars.) -/
def buildProcessStats (files : List UploadFile) (allData : List Entry) :
    ProcessStats :=
  { totalFiles := files.length
    totalEntries := allData.length
    processedSongs := (StreamingAdapter.calculatePlayStats allData).processedSongs
    nullTrackNames := StreamingAdapter.nullTrackNames allData
    skippedEntries := 0
    shortPlays := (StreamingAdapter.calculatePlayStats allData).shortPlays
    totalListeningTime :=
      (StreamingAdapter.calculatePlayStats allData).totalListeningTime }

namespace PodcastRankings

/-- Adapter dispatch of `processFiles` (podcast-rankings.js lines
1160-1263): Spotify JSON files by name pattern, Apple Music CSV files by
name pattern, everything else contributes nothing.  Parse failures
contribute an empty sequence. -/
def fileEvents (now : Int) (file : UploadFile) : List Entry :=
  let fileName := jsToLower file.name
  if (jsIncludes "streaming_history" fileName || jsIncludes "endsong" fileName) &&
      jsEndsWith ".json" fileName then
    match file.content with
    | FileContent.jsonArray data => data.map (fun e => { e with source := "spotify" })
    | _ => []
  else if jsIncludes "apple" fileName && jsEndsWith ".csv" fileName then
    match file.content with
    | FileContent.csvRows rows =>
      (rows.filter (fun r => truthyStr r.trackName && truthyNum r.lastPlayedDate)).map
        (transformAppleRow now)
    | _ => []
  else []

/-- The accumulated `allProcessedData` of `processFiles`. -/
def allProcessedData (now : Int) (files : List UploadFile) : List Entry :=
  (files.map (fileEvents now)).flatten

/-- Embeds `processFiles` of podcast-rankings.js (lines 1155-1332): when the
batch yields zero canonical events it throws the user-visible error of
lines 1268-1270; otherwise it returns the result object, modelled here by
its `stats` block and the canonical event list (the remaining fields of the
result are rankings derived from `calculatePlayStats`,
`calculateArtistStreaks` and `calculateBriefObsessions` over the same
events and cannot affect whether the call errors). -/
def processFiles (now : Int) (files : List UploadFile) :
    Except String (ProcessStats × List Entry) :=
  if (allProcessedData now files).length = 0 then
    Except.error "No valid streaming data found in the uploaded files."
  else
    Except.ok (buildProcessStats files (allProcessedData now files),
      allProcessedData now files)

end PodcastRankings

namespace StreamingAdapter

/-- The message of the `RangeError` raised by
`new Date(ms).toISOString()` on an invalid or out-of-range date. -/
def rangeErrorMsg : String := "Invalid time value"

/-- Embeds the per-row map of the Apple Music branch of the
streaming-adapter `processFiles` (lines 318-367): the Kenny Rogers
special-case row, otherwise an `"Artist - Track"` split only when the first
`" - "` occurs at a positive index (`dashIndex > 0`); no comma convention in
this variant.  The `toISOString()` call of the Kenny Rogers branch (lines
325-332) is not guarded by a try/catch, so an unparsable or out-of-range
`Last Played Date` there throws the `RangeError`; only the normal branch
(lines 347-353) has the wall-clock fallback. -/
def transformAppleRow (now : Int) (row : PodcastRankings.AppleRow) :
    Except String Entry :=
  if jsIncludes "just dropped in" (jsToLower (row.trackName.getD "")) = true ∧
      jsIncludes "kenny rogers" (jsToLower (row.trackName.getD "")) = true then
    match row.lastPlayedDate with
    | some d =>
      if validDateMs d then
        Except.ok
          { master_metadata_track_name :=
              some "Just Dropped In (To See What Condition My Condition Is In)"
            ts := d
            ms_played := if row.isUserInitiated then 240000 else 30000
            master_metadata_album_artist_name :=
              some "Kenny Rogers & The First Edition"
            master_metadata_album_album_name := some "Unknown Album"
            source := "apple_music" }
      else Except.error rangeErrorMsg
    | none => Except.error rangeErrorMsg
  else
    let timestamp :=
      match row.lastPlayedDate with
      | some d => if validDateMs d then d else now
      | none => now
    let tn := (row.trackName.getD "").data
    let split :=
      match firstIdxOf " - ".data tn with
      | some dashIndex =>
        if 0 < dashIndex then
          (jsTrimL (tn.take dashIndex), jsTrimL (tn.drop (dashIndex + 3)))
        else ("Unknown Artist".data, tn)
      | none => ("Unknown Artist".data, tn)
    Except.ok
      { master_metadata_track_name := some (String.mk split.2)
        ts := timestamp
        ms_played := if row.isUserInitiated then 240000 else 30000
        master_metadata_album_artist_name := some (String.mk split.1)
        master_metadata_album_album_name := some "Unknown Album"
        source := "apple_music" }

/-- The row map of the Apple CSV branch: left to right, stopping at the
first row whose transform throws (a throw inside `Array.prototype.map`
aborts the whole `map`). -/
def mapRows (now : Int) : List PodcastRankings.AppleRow → Except String (List Entry)
  | [] => Except.ok []
  | r :: rs =>
    match transformAppleRow now r with
    | Except.error msg => Except.error msg
    | Except.ok v =>
      match mapRows now rs with
      | Except.error msg => Except.error msg
      | Except.ok vs => Except.ok (v :: vs)

/-- Adapter dispatch of the streaming-adapter `processFiles` (lines
291-382): the Spotify name test is case-sensitive here, the Apple test
lower-cases the name. -/
def fileEvents (now : Int) (file : UploadFile) : Except String (List Entry) :=
  if jsIncludes "Streaming_History" file.name && jsEndsWith ".json" file.name then
    match file.content with
    | FileContent.jsonArray data =>
      Except.ok (data.map (fun e => { e with source := "spotify" }))
    | _ => Except.ok []
  else if jsIncludes "apple" (jsToLower file.name) && jsEndsWith ".csv" file.name then
    match file.content with
    | FileContent.csvRows rows =>
      mapRows now (rows.filter (fun r => truthyStr r.trackName && truthyNum r.lastPlayedDate))
    | _ => Except.ok []
  else Except.ok []

/-- The accumulated `allProcessedData`; a throw in any file's adapter
rejects the surrounding `Promise.all`, so the whole batch fails. -/
def allProcessedData (now : Int) : List UploadFile → Except String (List Entry)
  | [] => Except.ok []
  | f :: fs =>
    match fileEvents now f with
    | Except.error msg => Except.error msg
    | Except.ok evs =>
      match allProcessedData now fs with
      | Except.error msg => Except.error msg
      | Except.ok rest => Except.ok (evs ++ rest)

/-- Embeds `processFiles` of streaming-adapter.js (lines 286-443): this
variant performs no empty-batch check; it returns a normal result object
(modelled as for the podcast variant) unless a row transform throws, in
which case the outer catch of lines 438-441 re-throws that error. -/
def processFiles (now : Int) (files : List UploadFile) :
    Except String (ProcessStats × List Entry) :=
  match allProcessedData now files with
  | Except.error msg => Except.error msg
  | Except.ok allData => Except.ok (buildProcessStats files allData, allData)

theorem transformAppleRow_error (now : Int) (row : PodcastRankings.AppleRow)
    (e : String) (h : transformAppleRow now row = Except.error e) :
    e = rangeErrorMsg := by
  unfold transformAppleRow at h
  by_cases hk : jsIncludes "just dropped in" (jsToLower (row.trackName.getD "")) = true ∧
      jsIncludes "kenny rogers" (jsToLower (row.trackName.getD "")) = true
  · rw [if_pos hk] at h
    cases hd : row.lastPlayedDate with
    | none =>
      simp only [hd] at h
      injection h with h2
      exact h2.symm
    | some d =>
      simp only [hd] at h
      by_cases hv : validDateMs d = true
      · rw [if_pos hv] at h
        exact Except.noConfusion h
      · rw [if_neg hv] at h
        injection h with h2
        exact h2.symm
  · rw [if_neg hk] at h
    exact Except.noConfusion h

theorem mapRows_error (now : Int) :
    ∀ (rows : List PodcastRankings.AppleRow) (e : String),
      mapRows now rows = Except.error e → e = rangeErrorMsg := by
  intro rows
  induction rows with
  | nil =>
    intro e h
    exact Except.noConfusion h
  | cons r rs ih =>
    intro e h
    unfold mapRows at h
    cases hr : transformAppleRow now r with
    | error msg =>
      simp only [hr] at h
      injection h with h2
      rw [← h2]
      exact transformAppleRow_error now r msg hr
    | ok v =>
      simp only [hr] at h
      cases hm : mapRows now rs with
      | error msg =>
        simp only [hm] at h
        injection h with h2
        rw [← h2]
        exact ih msg hm
      | ok vs =>
        simp only [hm] at h
        exact Except.noConfusion h

theorem fileEvents_error (now : Int) (file : UploadFile) (e : String)
    (h : fileEvents now file = Except.error e) : e = rangeErrorMsg := by
  unfold fileEvents at h
  by_cases h1 : (jsIncludes "Streaming_History" file.name &&
      jsEndsWith ".json" file.name) = true
  · rw [if_pos h1] at h
    cases hc : file.content with
    | jsonArray data =>
      simp only [hc] at h
      exact Except.noConfusion h
    | malformedJson =>
      simp only [hc] at h
      exact Except.noConfusion h
    | csvRows rows =>
      simp only [hc] at h
      exact Except.noConfusion h
  · rw [if_neg h1] at h
    by_cases h2 : (jsIncludes "apple" (jsToLower file.name) &&
        jsEndsWith ".csv" file.name) = true
    · rw [if_pos h2] at h
      cases hc : file.content with
      | csvRows rows =>
        simp only [hc] at h
        exact mapRows_error now _ e h
      | jsonArray data =>
        simp only [hc] at h
        exact Except.noConfusion h
      | malformedJson =>
        simp only [hc] at h
        exact Except.noConfusion h
    · rw [if_neg h2] at h
      exact Except.noConfusion h

theorem allProcessedData_error (now : Int) :
    ∀ (files : List UploadFile) (e : String),
      allProcessedData now files = Except.error e → e = rangeErrorMsg := by
  intro files
  induction files with
  | nil =>
    intro e h
    exact Except.noConfusion h
  | cons f fs ih =>
    intro e h
    unfold allProcessedData at h
    cases hf : fileEvents now f with
    | error msg =>
      simp only [hf] at h
      injection h with h2
      rw [← h2]
      exact fileEvents_error now f msg hf
    | ok evs =>
      simp only [hf] at h
      cases hr : allProcessedData now fs with
      | error msg =>
        simp only [hr] at h
        injection h with h2
        rw [← h2]
        exact ih msg hr
      | ok rest =>
        simp only [hr] at h
        exact Except.noConfusion h

theorem processFiles_error (now : Int) (files : List UploadFile) (e : String)
    (h : processFiles now files = Except.error e) : e = rangeErrorMsg := by
  unfold processFiles at h
  cases ha : allProcessedData now files with
  | error msg =>
    simp only [ha] at h
    injection h with h2
    rw [← h2]
    exact allProcessedData_error now files msg ha
  | ok allData =>
    simp only [ha] at h
    exact Except.noConfusion h

end StreamingAdapter

/-- Counterexample for C3 as stated: a batch whose only file matches no
adapter yields zero canonical events, yet the streaming-adapter
`processFiles` returns a normal (non-error) result object. -/
theorem c3_no_valid_data_counterexample :
    StreamingAdapter.allProcessedData 0
      [{ name := "notes.txt", content := FileContent.malformedJson }] =
      Except.ok [] ∧
    (StreamingAdapter.processFiles 0
      [{ name := "notes.txt", content := FileContent.malformedJson }]).isOk = true := by
  decide

/-- C3 (amended): the podcast-rankings `processFiles` fails with the
"no valid data" error exactly when the batch yields zero canonical events;
the streaming-adapter `processFiles` never raises that error — the only
error it can raise is the `RangeError` escaping the unguarded
`toISOString()` of its Kenny Rogers row branch — and in particular a
zero-event batch yields its normal result object. -/
theorem c3_no_valid_data_error (now : Int) (files : List UploadFile) :
    (PodcastRankings.processFiles now files =
        Except.error "No valid streaming data found in the uploaded files." ↔
      (PodcastRankings.allProcessedData now files).length = 0) ∧
    (∀ e : String, StreamingAdapter.processFiles now files = Except.error e →
      e = StreamingAdapter.rangeErrorMsg) ∧
    StreamingAdapter.processFiles now files ≠
      Except.error "No valid streaming data found in the uploaded files." := by
  refine ⟨?_, ?_, ?_⟩
  · unfold PodcastRankings.processFiles
    by_cases hz : (PodcastRankings.allProcessedData now files).length = 0
    · simp [hz]
    · simp [hz]
  · intro e he
    exact StreamingAdapter.processFiles_error now files e he
  · intro hcontra
    have hmsg := StreamingAdapter.processFiles_error now files _ hcontra
    exact absurd hmsg (by decide)

/-- An Apple CSV file whose Kenny Rogers row carries an out-of-range
epoch-millisecond `Last Played Date`. -/
def kennyBadFile : UploadFile :=
  { name := "apple_music.csv"
    content := FileContent.csvRows
      [{ trackName := some "Just Dropped In - Kenny Rogers"
         lastPlayedDate := some 9000000000000000
         isUserInitiated := true }] }

/-- Witness for the amended C3: the streaming-adapter call on the
out-of-range Kenny Rogers row fails with the `RangeError` message, which is
not the "no valid data" error. -/
theorem c3_no_valid_data_error_witness :
    StreamingAdapter.processFiles 0 [kennyBadFile] =
      Except.error "Invalid time value" ∧
    "Invalid time value" = StreamingAdapter.rangeErrorMsg ∧
    StreamingAdapter.processFiles 0 [kennyBadFile] ≠
      Except.error "No valid streaming data found in the uploaded files." := by
  have h := c3_no_valid_data_error 0 [kennyBadFile]
  have h1 : StreamingAdapter.processFiles 0 [kennyBadFile] =
      Except.error "Invalid time value" := by decide
  exact ⟨h1, h.2.1 "Invalid time value" h1, h.2.2⟩

/-! ## Apple row transformation (claim C7) -/

/-- C7 (amended): the podcast-rankings Apple adapter splits a combined
`Track Name` on the first `" - "` with the left part as artist and the
right part as track, and with no `" - "` splits `"Track, Artist"` on `", "`
taking the last segment as artist; the streaming-adapter variant has no
comma convention and splits only when the first `" - "` sits at a positive
index (its Kenny Rogers hardcode bypasses the split, see the
counterexample); in both variants a user-initiated row gets the full-play
constant 240000 ms, any other row the partial constant 30000 ms. -/
theorem c7_apple_row_transform (now : Int) (row : PodcastRankings.AppleRow) :
    (∀ pre post : List Char,
      (row.trackName.getD "").data = pre ++ " - ".data ++ post →
      (∀ i < pre.length,
        List.isPrefixOf " - ".data (((row.trackName.getD "").data).drop i) = false) →
      (PodcastRankings.transformAppleRow now row).master_metadata_album_artist_name =
          some (String.mk (jsTrimL pre)) ∧
      (PodcastRankings.transformAppleRow now row).master_metadata_track_name =
          some (String.mk (jsTrimL post))) ∧
    (firstIdxOf " - ".data (row.trackName.getD "").data = none →
      2 ≤ (splitOnSeq ", ".data (row.trackName.getD "").data).length →
      (PodcastRankings.transformAppleRow now row).master_metadata_album_artist_name =
          some (String.mk (jsTrimL
            ((splitOnSeq ", ".data (row.trackName.getD "").data).getLastD []))) ∧
      (PodcastRankings.transformAppleRow now row).master_metadata_track_name =
          some (String.mk (jsTrimL (joinSep ", ".data
            (splitOnSeq ", ".data (row.trackName.getD "").data).dropLast)))) ∧
    (PodcastRankings.transformAppleRow now row).ms_played =
      (if row.isUserInitiated then 240000 else 30000) ∧
    (∀ pre post : List Char,
      ¬(jsIncludes "just dropped in" (jsToLower (row.trackName.getD "")) = true ∧
        jsIncludes "kenny rogers" (jsToLower (row.trackName.getD "")) = true) →
      (row.trackName.getD "").data = pre ++ " - ".data ++ post →
      (∀ i < pre.length,
        List.isPrefixOf " - ".data (((row.trackName.getD "").data).drop i) = false) →
      pre ≠ [] →
      StreamingAdapter.transformAppleRow now row =
        Except.ok
          { master_metadata_track_name := some (String.mk (jsTrimL post))
            master_metadata_album_artist_name := some (String.mk (jsTrimL pre))
            master_metadata_album_album_name := some "Unknown Album"
            ts := (match row.lastPlayedDate with
              | some d => if validDateMs d then d else now
              | none => now)
            ms_played := if row.isUserInitiated then 240000 else 30000
            source := "apple_music" }) ∧
    (∀ en : Entry, StreamingAdapter.transformAppleRow now row = Except.ok en →
      en.ms_played = (if row.isUserInitiated then 240000 else 30000)) := by
  refine ⟨?_, ?_, ?_, ?_, ?_⟩
  · intro pre post hdec hno
    have hidx : firstIdxOf " - ".data (row.trackName.getD "").data = some pre.length :=
      firstIdxOf_decomp " - ".data pre _ post hdec hno
    have htake : ((row.trackName.getD "").data).take pre.length = pre := by
      rw [hdec, List.append_assoc, List.take_left]
    have hdrop : ((row.trackName.getD "").data).drop (pre.length + 3) = post := by
      rw [hdec]
      rw [show pre.length + 3 = (pre ++ " - ".data).length from by simp]
      rw [List.drop_left]
    simp only [PodcastRankings.transformAppleRow, hidx]
    rw [htake, hdrop]
    exact ⟨rfl, rfl⟩
  · intro hnone hlen
    have hsome : (firstIdxOf ", ".data (row.trackName.getD "").data).isSome = true := by
      cases hcomma : firstIdxOf ", ".data (row.trackName.getD "").data
      · rw [splitOnSeq_eq_single _ _ hcomma] at hlen
        simp at hlen
      · rfl
    simp only [PodcastRankings.transformAppleRow, hnone, hsome, if_pos hlen]
    simp
  · simp [PodcastRankings.transformAppleRow]
  · intro pre post hk hdec hno hpre
    have hidx : firstIdxOf " - ".data (row.trackName.getD "").data = some pre.length :=
      firstIdxOf_decomp " - ".data pre _ post hdec hno
    have htake : ((row.trackName.getD "").data).take pre.length = pre := by
      rw [hdec, List.append_assoc, List.take_left]
    have hdrop : ((row.trackName.getD "").data).drop (pre.length + 3) = post := by
      rw [hdec]
      rw [show pre.length + 3 = (pre ++ " - ".data).length from by simp]
      rw [List.drop_left]
    have hpos : 0 < pre.length := List.length_pos.mpr hpre
    simp only [StreamingAdapter.transformAppleRow, if_neg hk, hidx, if_pos hpos]
    rw [htake, hdrop]
  · intro en he
    unfold StreamingAdapter.transformAppleRow at he
    by_cases hk : jsIncludes "just dropped in" (jsToLower (row.trackName.getD "")) = true ∧
        jsIncludes "kenny rogers" (jsToLower (row.trackName.getD "")) = true
    · rw [if_pos hk] at he
      cases hd : row.lastPlayedDate with
      | none =>
        simp only [hd] at he
        exact Except.noConfusion he
      | some d =>
        simp only [hd] at he
        by_cases hv : validDateMs d = true
        · rw [if_pos hv] at he
          injection he with h
          rw [← h]
        · rw [if_neg hv] at he
          exact Except.noConfusion he
    · rw [if_neg hk] at he
      simp only [Except.ok.injEq] at he
      rw [← he]

/-- Counterexample for C7 as stated: the streaming-adapter variant has no
`"Track, Artist"` comma convention — the row `"Stronger, Kanye West"` is
left unsplit with artist `"Unknown Artist"` — and its Kenny Rogers
hardcode replaces a `" - "` row's fields instead of splitting them. -/
theorem c7_apple_split_counterexample :
    containsSeq ", ".data "Stronger, Kanye West".data = true ∧
    StreamingAdapter.transformAppleRow 0
      { trackName := some "Stronger, Kanye West", lastPlayedDate := some 1000,
        isUserInitiated := true } =
      Except.ok
        { master_metadata_track_name := some "Stronger, Kanye West"
          master_metadata_album_artist_name := some "Unknown Artist"
          master_metadata_album_album_name := some "Unknown Album"
          ts := 1000
          ms_played := 240000
          source := "apple_music" } ∧
    containsSeq " - ".data "Just Dropped In - Kenny Rogers".data = true ∧
    StreamingAdapter.transformAppleRow 0
      { trackName := some "Just Dropped In - Kenny Rogers", lastPlayedDate := some 1000,
        isUserInitiated := true } =
      Except.ok
        { master_metadata_track_name :=
            some "Just Dropped In (To See What Condition My Condition Is In)"
          master_metadata_album_artist_name := some "Kenny Rogers & The First Edition"
          master_metadata_album_album_name := some "Unknown Album"
          ts := 1000
          ms_played := 240000
          source := "apple_music" } := by
  decide

/-- Row `"Kanye West - Stronger"`, user-initiated, with a valid date. -/
def kanyeRow : PodcastRankings.AppleRow :=
  { trackName := some "Kanye West - Stronger"
    lastPlayedDate := some 1000
    isUserInitiated := true }

/-- The canonical event the streaming-adapter transform produces for
`kanyeRow`. -/
def kanyeEntry : Entry :=
  { master_metadata_track_name := some "Stronger"
    master_metadata_album_artist_name := some "Kanye West"
    master_metadata_album_album_name := some "Unknown Album"
    ts := 1000
    ms_played := 240000
    source := "apple_music" }

/-- Witness for the amended C7 at the row `"Kanye West - Stronger"` with
`Is User Initiated = true`: both variants split out artist "Kanye West" and
track "Stronger" and use the full-play duration. -/
theorem c7_apple_row_transform_witness :
    (PodcastRankings.transformAppleRow 0 kanyeRow).master_metadata_album_artist_name =
      some (String.mk (jsTrimL "Kanye West".data)) ∧
    (PodcastRankings.transformAppleRow 0 kanyeRow).master_metadata_track_name =
      some (String.mk (jsTrimL "Stronger".data)) ∧
    (PodcastRankings.transformAppleRow 0 kanyeRow).master_metadata_album_artist_name =
      some "Kanye West" ∧
    (PodcastRankings.transformAppleRow 0 kanyeRow).ms_played = 240000 ∧
    StreamingAdapter.transformAppleRow 0 kanyeRow = Except.ok kanyeEntry ∧
    kanyeEntry.ms_played = (if kanyeRow.isUserInitiated then 240000 else 30000) := by
  have h := c7_apple_row_transform 0 kanyeRow
  have h1 := h.1 "Kanye West".data "Stronger".data (by decide) (by decide)
  have h4 := h.2.2.2.1 "Kanye West".data "Stronger".data (by decide) (by decide)
    (by decide) (by decide)
  have h5 : StreamingAdapter.transformAppleRow 0 kanyeRow = Except.ok kanyeEntry :=
    h4.trans (by decide)
  exact ⟨h1.1, h1.2, by decide, by decide, h5, h.2.2.2.2 kanyeEntry h5⟩

namespace PodcastRankings

/-! ### Podcast query filter (claim C9) -/

/-- Midnight of a calendar day, `startOfDay(new Date(d))` in the modelled
UTC clock. -/
def startOfDayMs (d : Int) : Int := d * 86400000

/-- Last millisecond of a calendar day, `endOfDay(new Date(d))`. -/
def endOfDayMs (d : Int) : Int := d * 86400000 + 86399999

/-- The inclusion test of the `filteredEpisodes` memo (podcast-rankings.js
lines 57-71): timestamp inside `[start, end]`, truthy show and episode
names, and an empty selected-show list or a selected show.  `startDate` and
`endDate` are optional calendar days (the source keeps them as `''` or
`'yyyy-MM-dd'` strings); unset dates default to epoch 0 and the wall
clock. -/
def podcastIncluded (startDate endDate : Option Int) (selectedShows : List String)
    (now : Int) (entry : Entry) : Bool :=
  let start := match startDate with
    | some d => startOfDayMs d
    | none => 0
  let endT := match endDate with
    | some d => endOfDayMs d
    | none => now
  decide (start ≤ entry.ts) && decide (entry.ts ≤ endT) &&
    truthyStr entry.episode_show_name && truthyStr entry.episode_name &&
    (decide (selectedShows.length = 0) ||
      decide ((entry.episode_show_name.getD "") ∈ selectedShows))

/-- One grouped episode row of the podcast query result. -/
structure EpisodeStat where
  episodeName : String
  showName : String
  totalPlayed : Int
  playCount : Nat
  deriving DecidableEq, Repr

/-- Modelled from the spec: the body of the `filteredEpisodes` memo after
the inclusion test is truncated in the source file (the text jumps from
line 88 into unrelated date-picker helpers), so the grouping is modelled
from spec §4.5 — matching events are grouped by episode+show (the key
`` `${episode_name}-${episode_show_name}` `` of source line 73) and their
played time and session count accumulated.  The inclusion test
`podcastIncluded` itself is embedded from source lines 57-71. -/
def filteredEpisodes (startDate endDate : Option Int) (selectedShows : List String)
    (now : Int) (rawPlayData : List Entry) : List EpisodeStat :=
  if rawPlayData.isEmpty then [] else
  ((rawPlayData.filter (podcastIncluded startDate endDate selectedShows now)).foldl
    (fun m entry =>
      jsUpsert ((entry.episode_name.getD "") ++ "-" ++ (entry.episode_show_name.getD ""))
        (fun s => { s with
          totalPlayed := s.totalPlayed + entry.ms_played
          playCount := s.playCount + 1 })
        { episodeName := entry.episode_name.getD ""
          showName := entry.episode_show_name.getD ""
          totalPlayed := entry.ms_played
          playCount := 1 }
        m)
    []).map (fun p => p.2)

end PodcastRankings

/-- C9: an event passes the podcast query filter exactly when its timestamp
lies in the inclusive range from the start of `startDate` to the end of
`endDate`, it carries truthy show and episode names, and the selected-show
set is empty or contains its show; and a batch with no matching events
yields the empty result rather than a failure. -/
theorem c9_podcast_filter (sd ed : Int) (sel : List String) (now : Int)
    (raw : List Entry) :
    (∀ e : Entry,
      PodcastRankings.podcastIncluded (some sd) (some ed) sel now e = true ↔
        (PodcastRankings.startOfDayMs sd ≤ e.ts ∧
          e.ts ≤ PodcastRankings.endOfDayMs ed ∧
          truthyStr e.episode_show_name = true ∧
          truthyStr e.episode_name = true ∧
          (sel = [] ∨ (e.episode_show_name.getD "") ∈ sel))) ∧
    (raw.filter (PodcastRankings.podcastIncluded (some sd) (some ed) sel now) = [] →
      PodcastRankings.filteredEpisodes (some sd) (some ed) sel now raw = []) := by
  constructor
  · intro e
    simp [PodcastRankings.podcastIncluded, List.length_eq_zero, and_assoc]
  · intro hnone
    unfold PodcastRankings.filteredEpisodes
    by_cases hraw : raw.isEmpty
    · simp [hraw]
    · simp only [hraw, Bool.false_eq_true, if_false, hnone]
      rfl

/-- Witness for C9: a music-only event matches no podcast filter, and the
query result is empty rather than an error. -/
theorem c9_podcast_filter_witness :
    PodcastRankings.filteredEpisodes (some 0) (some 1) [] 0
      [StreamingAdapter.sampleLong] = [] ∧
    (PodcastRankings.podcastIncluded (some 0) (some 1) [] 0
        StreamingAdapter.sampleLong = true ↔
      (PodcastRankings.startOfDayMs 0 ≤ StreamingAdapter.sampleLong.ts ∧
        StreamingAdapter.sampleLong.ts ≤ PodcastRankings.endOfDayMs 1 ∧
        truthyStr StreamingAdapter.sampleLong.episode_show_name = true ∧
        truthyStr StreamingAdapter.sampleLong.episode_name = true ∧
        (([] : List String) = [] ∨
          (StreamingAdapter.sampleLong.episode_show_name.getD "") ∈
            ([] : List String)))) :=
  ⟨(c9_podcast_filter 0 1 [] 0 [StreamingAdapter.sampleLong]).2 (by decide),
   (c9_podcast_filter 0 1 [] 0 [StreamingAdapter.sampleLong]).1
     StreamingAdapter.sampleLong⟩
